import Mathlib

/-!
Verification development for the Membercoin data-fetch coordination layer.

The development embeds two parts of the repository:

* the request manager (`requestmanager.h`): the repository ships only the
  class declaration, so the operation bodies are modelled from the
  specification document (each such definition carries a doc comment
  starting with `Modelled from the spec:`); the data model (the fields of
  `CUnknownObj`, `QueuedBlock`, `CRequestManagerNodeState`,
  `CRequestManager`) is translated from the header;
* the coins database (`txdb.cpp`): `WriteBestBlock`, `_WriteBestBlock`,
  `GetBestBlock`, `_GetBestBlock` and the best-block part of `BatchWrite`
  are translated directly from the source.

Hashes (`uint256`) are modelled as `Nat`, with `0` playing the role of the
null hash; node ids as `Nat`; stopwatch timestamps as `Int` microseconds.
-/

namespace Membercoin

abbrev Hash := Nat
abbrev NodeId := Nat
abbrev Micros := Int

/-! ### Association-list helpers

The C++ code stores its tracking state in `std::map`s; the embedding uses
association lists with the lookup/update/erase operations below. -/

def alLookup (k : Nat) : List (Nat × α) → Option α
  | [] => none
  | (k', v) :: m => if k' = k then some v else alLookup k m

def alUpdate (k : Nat) (f : α → α) (m : List (Nat × α)) : List (Nat × α) :=
  m.map (fun p => if p.1 = k then (p.1, f p.2) else p)

def alErase (k : Nat) : List (Nat × α) → List (Nat × α)
  | [] => []
  | p :: m => if p.1 = k then alErase k m else p :: alErase k m

def keysOf (m : List (Nat × α)) : List Nat := m.map Prod.fst

@[simp] theorem alLookup_nil (k : Nat) : alLookup k ([] : List (Nat × α)) = none := rfl

@[simp] theorem alLookup_cons (k : Nat) (p : Nat × α) (m : List (Nat × α)) :
    alLookup k (p :: m) = if p.1 = k then some p.2 else alLookup k m := by
  cases p; rfl

@[simp] theorem keysOf_nil : keysOf ([] : List (Nat × α)) = [] := rfl

@[simp] theorem keysOf_cons (p : Nat × α) (m : List (Nat × α)) :
    keysOf (p :: m) = p.1 :: keysOf m := rfl

theorem alLookup_eq_none_iff (k : Nat) (m : List (Nat × α)) :
    alLookup k m = none ↔ k ∉ keysOf m := by
  induction m with
  | nil => simp
  | cons p m ih =>
    cases p with
    | mk k' v =>
      by_cases h : k' = k
      · subst h; simp
      · rw [alLookup_cons, if_neg h, keysOf_cons, ih]
        simp only [List.mem_cons, not_or]
        constructor
        · intro h1; exact ⟨fun he => h he.symm, h1⟩
        · intro h1; exact h1.2

theorem alLookup_mem (k : Nat) (v : α) (m : List (Nat × α))
    (h : alLookup k m = some v) : (k, v) ∈ m := by
  induction m with
  | nil => simp [alLookup] at h
  | cons p m ih =>
    cases p with
    | mk k' w =>
      by_cases hk : k' = k
      · subst hk; simp at h; simp [h]
      · simp [hk] at h; exact List.mem_cons_of_mem _ (ih h)

theorem alLookup_of_mem_nodup {k : Nat} {v : α} {m : List (Nat × α)}
    (hnd : (keysOf m).Nodup) (h : (k, v) ∈ m) : alLookup k m = some v := by
  induction m with
  | nil => simp at h
  | cons p m ih =>
    cases p with
    | mk k' w =>
      rw [keysOf_cons, List.nodup_cons] at hnd
      obtain ⟨hnotin, hnd'⟩ := hnd
      rcases List.mem_cons.1 h with h1 | h1
      · cases h1; simp
      · have hk : k' ≠ k := by
          intro he; subst he
          exact hnotin (List.mem_map.2 ⟨(k', v), h1, rfl⟩)
        simp only [alLookup_cons, if_neg hk]
        exact ih hnd' h1

@[simp] theorem alLookup_alUpdate (k j : Nat) (f : α → α) (m : List (Nat × α)) :
    alLookup k (alUpdate j f m) =
      if j = k then (alLookup k m).map f else alLookup k m := by
  induction m with
  | nil => simp only [alUpdate, List.map_nil, alLookup_nil]; split <;> rfl
  | cons p m ih =>
    cases p with
    | mk k' v =>
      simp only [alUpdate, List.map_cons] at *
      by_cases h1 : k' = j
      · subst h1
        by_cases h2 : k' = k
        · subst h2; simp [ih]
        · simp [h2, ih]
      · by_cases h2 : k' = k
        · subst h2
          have hj : j ≠ k' := fun he => h1 he.symm
          simp [h1, hj]
        · simp [h1, h2, ih]

@[simp] theorem alLookup_alErase (k j : Nat) (m : List (Nat × α)) :
    alLookup k (alErase j m) = if j = k then none else alLookup k m := by
  induction m with
  | nil => simp only [alErase, alLookup_nil]; split <;> rfl
  | cons p m ih =>
    cases p with
    | mk k' v =>
      by_cases h1 : k' = j
      · subst h1
        rw [alErase, if_pos rfl, ih, alLookup_cons]
        by_cases h2 : k' = k
        · subst h2; simp
        · simp [h2]
      · rw [alErase, if_neg h1, alLookup_cons]
        by_cases h2 : k' = k
        · subst h2
          have hj : j ≠ k' := fun he => h1 he.symm
          simp [hj]
        · simp only [alLookup_cons, if_neg h2]
          exact ih

@[simp] theorem keysOf_alUpdate (k : Nat) (f : α → α) (m : List (Nat × α)) :
    keysOf (alUpdate k f m) = keysOf m := by
  induction m with
  | nil => rfl
  | cons p m ih =>
    cases p with
    | mk k' v =>
      by_cases h : k' = k <;>
        simp only [alUpdate, List.map_cons, keysOf_cons] at ih ⊢ <;>
        simp [h, ih]

theorem keysOf_alErase_sublist (k : Nat) (m : List (Nat × α)) :
    (keysOf (alErase k m)).Sublist (keysOf m) := by
  induction m with
  | nil => simp [alErase]
  | cons p m ih =>
    by_cases h : p.1 = k
    · rw [alErase, if_pos h, keysOf_cons]
      exact ih.cons _
    · rw [alErase, if_neg h, keysOf_cons, keysOf_cons]
      exact ih.cons₂ _

theorem mem_alUpdate {k : Nat} {f : α → α} {m : List (Nat × α)} {p : Nat × α}
    (h : p ∈ alUpdate k f m) :
    ∃ q ∈ m, p = (if q.1 = k then (q.1, f q.2) else q) := by
  rcases List.mem_map.1 h with ⟨q, hq, he⟩
  exact ⟨q, hq, he.symm⟩

theorem mem_alUpdate_of_mem {k : Nat} {f : α → α} {m : List (Nat × α)} {q : Nat × α}
    (h : q ∈ m) :
    (if q.1 = k then (q.1, f q.2) else q) ∈ alUpdate k f m :=
  List.mem_map.2 ⟨q, h, rfl⟩

theorem mem_alErase {k : Nat} {m : List (Nat × α)} {p : Nat × α}
    (h : p ∈ alErase k m) : p ∈ m ∧ p.1 ≠ k := by
  induction m with
  | nil => simp [alErase] at h
  | cons q m ih =>
    by_cases hq : q.1 = k
    · rw [alErase, if_pos hq] at h
      rcases ih h with ⟨h1, h2⟩
      exact ⟨List.mem_cons_of_mem _ h1, h2⟩
    · rw [alErase, if_neg hq] at h
      rcases List.mem_cons.1 h with h1 | h1
      · subst h1; exact ⟨List.mem_cons_self _ _, hq⟩
      · rcases ih h1 with ⟨h2, h3⟩
        exact ⟨List.mem_cons_of_mem _ h2, h3⟩

theorem mem_alErase_of_mem {k : Nat} {m : List (Nat × α)} {p : Nat × α}
    (h : p ∈ m) (hne : p.1 ≠ k) : p ∈ alErase k m := by
  induction m with
  | nil => simp at h
  | cons q m ih =>
    rcases List.mem_cons.1 h with h1 | h1
    · subst h1
      rw [alErase, if_neg hne]
      exact List.mem_cons_self _ _
    · by_cases hq : q.1 = k
      · rw [alErase, if_pos hq]; exact ih h1
      · rw [alErase, if_neg hq]
        exact List.mem_cons_of_mem _ (ih h1)

/-! ### Request-manager data model (translated from `requestmanager.h`) -/

/-- Max requests allowed in a 10 minute window
(`MAX_THINTYPE_OBJECT_REQUESTS = 100`). -/
def MAX_THINTYPE_OBJECT_REQUESTS : Nat := 100

/-- Modelled from the spec: the length of the rolling DoS window
("a rolling 10-minute window"), in stopwatch microseconds. -/
def THINTYPE_REQUEST_WINDOW : Micros := 600000000

/-- `DEFAULT_MIN_TX_REQUEST_RETRY_INTERVAL = 5 * 1000 * 1000` microseconds. -/
def DEFAULT_MIN_TX_REQUEST_RETRY_INTERVAL : Nat := 5 * 1000 * 1000

/-- `DEFAULT_MIN_BLK_REQUEST_RETRY_INTERVAL = 5 * 1000 * 1000` microseconds. -/
def DEFAULT_MIN_BLK_REQUEST_RETRY_INTERVAL : Nat := 5 * 1000 * 1000

/-- Default value of the atomic `BLOCK_DOWNLOAD_WINDOW{1024}` member. -/
def BLOCK_DOWNLOAD_WINDOW : Nat := 1024

/-- One entry of `CUnknownObj::availableFrom` (class `CNodeRequestData`):
a candidate source for the object. -/
structure CNodeRequestData where
  requestCount : Nat
  desirability : Int
  node : NodeId
deriving Repr, DecidableEq

/-- The per-object tracking record (class `CUnknownObj`); the `obj : CInv`
field is represented by the key of the map the record is stored in, the
remaining fields are carried verbatim. -/
structure CUnknownObj where
  rateLimited : Bool
  nDownloadingSince : Micros
  fProcessing : Bool
  /-- In stopwatch time microseconds, 0 means no request. -/
  lastRequestTime : Micros
  outstandingReqs : Nat
  availableFrom : List CNodeRequestData
  priority : Nat
deriving Repr, DecidableEq

/-- The value of a freshly constructed `CUnknownObj()`. -/
def CUnknownObj.fresh : CUnknownObj :=
  { rateLimited := false, nDownloadingSince := 0, fProcessing := false,
    lastRequestTime := 0, outstandingReqs := 0, availableFrom := [], priority := 0 }

/-- `struct QueuedBlock { uint256 hash; int64_t nTime; }`. -/
structure QueuedBlock where
  hash : Hash
  nTime : Micros
deriving Repr, DecidableEq

/-- `struct CRequestManagerNodeState`; the pair
`double nNumRequests; uint64_t nLastRequest;` ("track how many thin type
objects were requested for this peer") is modelled from the spec as the
list of thin-type request timestamps inside the rolling window. -/
structure CRequestManagerNodeState where
  vBlocksInFlight : List QueuedBlock
  nDownloadingSince : Micros
  nBlocksInFlight : Nat
  thinTypeRequestTimes : List Micros
deriving Repr, DecidableEq

/-- A freshly constructed `CRequestManagerNodeState()`. -/
def CRequestManagerNodeState.fresh : CRequestManagerNodeState :=
  { vBlocksInFlight := [], nDownloadingSince := 0, nBlocksInFlight := 0,
    thinTypeRequestTimes := [] }

/-- Which of the two `OdMap`s (`mapTxnInfo` / `mapBlkInfo`) an object
lives in; stands for the type code of the `CInv`. -/
inductive ObjKind
  | tx
  | blk
deriving Repr, DecidableEq

/-- The mutable state of the singleton `CRequestManager` that the claims
are about: the two `OdMap`s, `mapBlocksInFlight`,
`mapRequestManagerNodeState` and the statistics counters. -/
structure CRequestManager where
  mapTxnInfo : List (Hash × CUnknownObj)
  mapBlkInfo : List (Hash × CUnknownObj)
  mapBlocksInFlight : List (Hash × List NodeId)
  mapRequestManagerNodeState : List (NodeId × CRequestManagerNodeState)
  inFlight : Nat
  receivedTxns : Nat
  rejectedTxns : Nat
  droppedTxns : Nat
  pendingTxns : Nat
deriving Repr, DecidableEq

/-- The freshly constructed request manager: all maps empty. -/
def CRequestManager.start : CRequestManager :=
  { mapTxnInfo := [], mapBlkInfo := [], mapBlocksInFlight := [],
    mapRequestManagerNodeState := [], inFlight := 0, receivedTxns := 0,
    rejectedTxns := 0, droppedTxns := 0, pendingTxns := 0 }

/-- The `OdMap` an object of kind `k` is tracked in. -/
def infoMap : ObjKind → CRequestManager → List (Hash × CUnknownObj)
  | .tx, s => s.mapTxnInfo
  | .blk, s => s.mapBlkInfo

/-- Replace the `OdMap` of kind `k`. -/
def setInfo : ObjKind → List (Hash × CUnknownObj) → CRequestManager → CRequestManager
  | .tx, m, s => { s with mapTxnInfo := m }
  | .blk, m, s => { s with mapBlkInfo := m }

/-! ### Request-manager operations

The bodies below are modelled from the specification document because the
repository ships only the class declaration for `CRequestManager`. -/

/-- Modelled from the spec: `CUnknownObj::AddSource(from)` — "registers
peer as a candidate holder; returns whether this is a new source"; here the
updated record (a no-op when the source already exists). -/
def AddSource (n : NodeId) (o : CUnknownObj) : CUnknownObj :=
  if o.availableFrom.any (fun src => decide (src.node = n)) then o
  else { o with availableFrom := o.availableFrom ++ [⟨0, 0, n⟩] }

/-- Modelled from the spec: `CRequestManager::AskFor(obj, from, priority)`
— "registers demand; does not immediately send": create the tracker entry
on first announcement, otherwise just add the announcing peer as a source. -/
def AskFor (k : ObjKind) (h : Hash) (n : NodeId) (prio : Nat)
    (s : CRequestManager) : CRequestManager :=
  match alLookup h (infoMap k s) with
  | some _ => setInfo k (alUpdate h (AddSource n) (infoMap k s)) s
  | none =>
      let o := { CUnknownObj.fresh with
                   availableFrom := [⟨0, 0, n⟩], priority := prio }
      { setInfo k ((h, o) :: infoMap k s) s with pendingTxns := s.pendingTxns + 1 }

/-- Remove node `n` from the inner node map of hash `h`, dropping the
entry for `h` when its inner map becomes empty (the `mapBlocksInFlight`
part of `CRequestManager::MapBlocksInFlightErase`). -/
def erasePair (h : Hash) (n : NodeId) : List (Hash × List NodeId) → List (Hash × List NodeId)
  | [] => []
  | (h', ns) :: m =>
      if h' = h then
        if (ns.filter (fun x => decide (x ≠ n))).isEmpty then erasePair h n m
        else (h', ns.filter (fun x => decide (x ≠ n))) :: erasePair h n m
      else (h', ns) :: erasePair h n m

/-- Modelled from the spec: `CRequestManager::MapBlocksInFlightErase(hash,
nodeid)` — removes the mirrored pair: the `mapBlocksInFlight[hash][nodeid]`
entry and, through the stored list position, the corresponding
`QueuedBlock` in the node's `vBlocksInFlight`. -/
def MapBlocksInFlightErase (h : Hash) (n : NodeId) (s : CRequestManager) : CRequestManager :=
  { s with
    mapBlocksInFlight := erasePair h n s.mapBlocksInFlight,
    mapRequestManagerNodeState :=
      alUpdate n (fun st =>
        { st with
          vBlocksInFlight := st.vBlocksInFlight.filter (fun qb => decide (qb.hash ≠ h)),
          nBlocksInFlight :=
            (st.vBlocksInFlight.filter (fun qb => decide (qb.hash ≠ h))).length })
        s.mapRequestManagerNodeState }

/-- Modelled from the spec: `CRequestManager::MarkBlockAsInFlight(nodeid,
hash)` — "transitions object to in-flight, stamps request time, increments
peer's and global in-flight counters"; the at-most-one-in-flight invariant
is "enforced by checking/setting the in-flight flag atomically", so the
operation is a no-op when the hash is already marked in-flight, and it
"fails silently (no-op)" when the node is unknown. -/
def MarkBlockAsInFlight (n : NodeId) (h : Hash) (now : Micros)
    (s : CRequestManager) : CRequestManager :=
  if (alLookup h s.mapBlocksInFlight).isSome then s
  else
    match alLookup n s.mapRequestManagerNodeState with
    | none => s
    | some _ =>
        { s with
          mapBlocksInFlight := (h, [n]) :: s.mapBlocksInFlight,
          mapRequestManagerNodeState :=
            alUpdate n (fun st =>
              { st with
                vBlocksInFlight := st.vBlocksInFlight ++ [⟨h, now⟩],
                nBlocksInFlight := st.nBlocksInFlight + 1,
                nDownloadingSince :=
                  if st.vBlocksInFlight.isEmpty then now else st.nDownloadingSince })
              s.mapRequestManagerNodeState,
          inFlight := s.inFlight + 1 }

/-- Modelled from the spec: `CRequestManager::Received(obj, pfrom)` —
removes the in-flight bookkeeping for the pair and releases the tracker
entry; a duplicate or unsolicited delivery is "treated as benign, recorded
for statistics, no state mutation beyond peer scoring". -/
def Received (k : ObjKind) (h : Hash) (n : NodeId) (s : CRequestManager) : CRequestManager :=
  match alLookup h (infoMap k (MapBlocksInFlightErase h n s)) with
  | none =>
      { MapBlocksInFlightErase h n s with
          receivedTxns := (MapBlocksInFlightErase h n s).receivedTxns + 1 }
  | some _ =>
      { setInfo k (alErase h (infoMap k (MapBlocksInFlightErase h n s)))
          (MapBlocksInFlightErase h n s) with
          receivedTxns := (MapBlocksInFlightErase h n s).receivedTxns + 1,
          pendingTxns := (MapBlocksInFlightErase h n s).pendingTxns - 1 }

/-- Modelled from the spec: `CRequestManager::Rejected(obj, from, reason)`
— "removes the offending source ... and — if other sources exist —
re-queues for immediate re-request; if exhausted, drops the object
entirely with a recorded statistic". -/
def Rejected (k : ObjKind) (h : Hash) (n : NodeId) (s : CRequestManager) : CRequestManager :=
  match alLookup h (infoMap k s) with
  | none => s
  | some o =>
      if (o.availableFrom.filter (fun src => decide (src.node ≠ n))).isEmpty then
        { setInfo k (alErase h (infoMap k s)) s with
            rejectedTxns := s.rejectedTxns + 1,
            droppedTxns := s.droppedTxns + 1 }
      else
        { setInfo k
            (alUpdate h (fun o2 =>
              { o2 with
                availableFrom := o.availableFrom.filter (fun src => decide (src.node ≠ n)),
                lastRequestTime := 0 })
              (infoMap k s)) s with
            rejectedTxns := s.rejectedTxns + 1 }

/-- Modelled from the spec: `CRequestManager::ResetLastBlockRequestTime(hash)`
— "zeroes the last-request timestamp so the scheduler treats it as
immediately eligible for re-request". -/
def ResetLastBlockRequestTime (h : Hash) (s : CRequestManager) : CRequestManager :=
  { s with
    mapBlkInfo := alUpdate h (fun o => { o with lastRequestTime := 0 }) s.mapBlkInfo }

/-- Modelled from the spec: record one thin-type object request of a peer
for the rolling-window DoS accounting. -/
def RecordThinTypeRequest (n : NodeId) (now : Micros) (s : CRequestManager) : CRequestManager :=
  { s with
    mapRequestManagerNodeState :=
      alUpdate n (fun st =>
        { st with thinTypeRequestTimes := now :: st.thinTypeRequestTimes })
        s.mapRequestManagerNodeState }

/-- The number of recorded thin-type requests that fall inside the rolling
window ending at `now`. -/
def requestsInWindow (now : Micros) (times : List Micros) : Nat :=
  (times.filter (fun t => decide (now - t < THINTYPE_REQUEST_WINDOW))).length

/-- Modelled from the spec: `CRequestManager::CheckForRequestDOS(pfrom,
chainparams)` — "a peer issuing more than `MAX_THINTYPE_OBJECT_REQUESTS`
thin-object requests within a rolling 10-minute window is flagged". -/
def CheckForRequestDOS (n : NodeId) (now : Micros) (s : CRequestManager) : Bool :=
  match alLookup n s.mapRequestManagerNodeState with
  | some st => decide (MAX_THINTYPE_OBJECT_REQUESTS < requestsInWindow now st.thinTypeRequestTimes)
  | none => false

/-- `CRequestManager::InitializeNodeState(nodeid)` (body in the header):
`mapRequestManagerNodeState.emplace(nodeid, CRequestManagerNodeState())`;
`emplace` inserts only when the key is absent. -/
def InitializeNodeState (n : NodeId) (s : CRequestManager) : CRequestManager :=
  match alLookup n s.mapRequestManagerNodeState with
  | some _ => s
  | none =>
      { s with
        mapRequestManagerNodeState :=
          (n, CRequestManagerNodeState.fresh) :: s.mapRequestManagerNodeState }

/-- Drop node `n` from a record's source list (disconnect releases the
node references held in `availableFrom`). -/
def stripSource (n : NodeId) (o : CUnknownObj) : CUnknownObj :=
  { o with availableFrom := o.availableFrom.filter (fun src => decide (src.node ≠ n)) }

/-- Disconnect treatment of one `mapBlkInfo` record: drop the departing
node from its sources, and zero `lastRequestTime` when the hash was in
flight from that node (the `ResetLastBlockRequestTime` call of disconnect
handling). -/
def disconnectBlkEntry (n : NodeId) (hs : List Hash) (k : Hash) (o : CUnknownObj) : CUnknownObj :=
  if hs.contains k then { stripSource n o with lastRequestTime := 0 }
  else stripSource n o

/-- Remove node `n` from every inner node map of `mapBlocksInFlight`,
dropping hashes whose inner map becomes empty. -/
def erasePairAllFor (n : NodeId) : List (Hash × List NodeId) → List (Hash × List NodeId)
  | [] => []
  | (h', ns) :: m =>
      if (ns.filter (fun x => decide (x ≠ n))).isEmpty then erasePairAllFor n m
      else (h', ns.filter (fun x => decide (x ≠ n))) :: erasePairAllFor n m

/-- Modelled from the spec: `CRequestManager::RemoveNodeState(nodeid)` —
disconnect handling: the node's in-flight blocks are released
(`MapBlocksInFlightErase` for each, and `ResetLastBlockRequestTime` zeroes
their last-request timestamps), the node's references are released from
all source lists, and its `CRequestManagerNodeState` entry is erased. -/
def RemoveNodeState (n : NodeId) (s : CRequestManager) : CRequestManager :=
  let hs : List Hash :=
    match alLookup n s.mapRequestManagerNodeState with
    | some st => st.vBlocksInFlight.map (fun qb => qb.hash)
    | none => []
  { s with
    mapBlocksInFlight := erasePairAllFor n s.mapBlocksInFlight,
    mapRequestManagerNodeState := alErase n s.mapRequestManagerNodeState,
    mapBlkInfo := s.mapBlkInfo.map (fun p => (p.1, disconnectBlkEntry n hs p.1 p.2)),
    mapTxnInfo := s.mapTxnInfo.map (fun p => (p.1, stripSource n p.2)) }

/-! ### The scheduling pass (`SendRequests`) -/

/-- The retry interval that applies to an object kind
(`txReqRetryInterval` / `blkReqRetryInterval`, configurable). -/
def retryInterval (txI blkI : Nat) : ObjKind → Nat
  | .tx => txI
  | .blk => blkI

/-- Modelled from the spec: an object is eligible for a (re-)request when
it is not being processed, not rate limited, has a known source, and
either was never requested (`lastRequestTime = 0`) or its kind's retry
interval has elapsed since the last request. -/
def reqEligible (intv : Nat) (now : Micros) (o : CUnknownObj) : Bool :=
  !o.fProcessing && !o.rateLimited && !o.availableFrom.isEmpty &&
    (decide (o.lastRequestTime = 0) || decide ((intv : Int) ≤ now - o.lastRequestTime))

/-- `true` when `b` is a strictly better source than `a`: higher
desirability, or equal desirability and fewer outstanding requests
(load balancing); insertion order breaks remaining ties. -/
def betterSource (a b : CNodeRequestData) : Bool :=
  decide (a.desirability < b.desirability) ||
    (decide (a.desirability = b.desirability) && decide (b.requestCount < a.requestCount))

/-- Modelled from the spec: pick the highest-desirability source; "among
equals, earliest-known source wins (insertion order)". -/
def selectSource : List CNodeRequestData → Option CNodeRequestData
  | [] => none
  | x :: xs => some (xs.foldl (fun acc y => if betterSource acc y then y else acc) x)

/-- Bump the request counter of the chosen source. -/
def bumpSource (n : NodeId) (l : List CNodeRequestData) : List CNodeRequestData :=
  l.map (fun src =>
    if src.node = n then { src with requestCount := src.requestCount + 1 } else src)

/-- If some node currently holds `h` in flight, erase that (stale) pair
before re-marking (at most one node holds it in any reachable state). -/
def clearInFlightFor (h : Hash) (s : CRequestManager) : CRequestManager :=
  match alLookup h s.mapBlocksInFlight with
  | some (nd :: _) => MapBlocksInFlightErase h nd s
  | _ => s

/-- Modelled from the spec: one step of the `SendRequests` dispatch pass
for the tracked object `h` of kind `k`: if the entry is eligible, pick the
best source, stamp the request time, bump the counters, and (for blocks)
mark the block in flight from the chosen node.  Returns the node the
request was issued to, if any. -/
def issueOne (k : ObjKind) (intv : Nat) (now : Micros) (h : Hash)
    (s : CRequestManager) : CRequestManager × Option NodeId :=
  match alLookup h (infoMap k s) with
  | none => (s, none)
  | some o =>
      if reqEligible intv now o then
        match selectSource o.availableFrom with
        | none => (s, none)
        | some src =>
            let s1 := setInfo k
              (alUpdate h (fun o2 =>
                { o2 with
                  lastRequestTime := now,
                  outstandingReqs := o2.outstandingReqs + 1,
                  availableFrom := bumpSource src.node o2.availableFrom })
                (infoMap k s)) s
            match k with
            | .blk => (MarkBlockAsInFlight src.node h now (clearInFlightFor h s1), some src.node)
            | .tx => (s1, some src.node)
      else (s, none)

/-- Run `issueOne` over a list of tracked hashes, collecting the issued
requests in order. -/
def sendLoop (k : ObjKind) (intv : Nat) (now : Micros) :
    List Hash → CRequestManager → CRequestManager × List (Hash × NodeId)
  | [], s => (s, [])
  | h :: hs, s =>
      let r := issueOne k intv now h s
      let t := sendLoop k intv now hs r.1
      (t.1, (match r.2 with | some nd => [(h, nd)] | none => []) ++ t.2)

/-- Modelled from the spec: `CRequestManager::SendRequests()` — the
dispatch pass over the tracked transactions and blocks.  (The persistent
`sendIter` cursor of the source only bounds per-call work; the model runs
a full pass.)  Returns the new state and the issued requests. -/
def SendRequests (txI blkI : Nat) (now : Micros) (s : CRequestManager) :
    CRequestManager × List (ObjKind × Hash × NodeId) :=
  let t := sendLoop .tx txI now (keysOf s.mapTxnInfo) s
  let b := sendLoop .blk blkI now (keysOf t.1.mapBlkInfo) t.1
  (b.1, t.2.map (fun p => (ObjKind.tx, p)) ++ b.2.map (fun p => (ObjKind.blk, p)))

/-- A block the peer is believed to possess, on the walk forward from the
last common ancestor (`pindexWalk`): its hash and chain height. -/
structure CandidateBlock where
  hash : Hash
  height : Nat
deriving Repr, DecidableEq

/-- Modelled from the spec: `CRequestManager::FindNextBlocksToDownload(node,
count, vBlocks)` — "selects up to `count` blocks this peer is believed to
possess that are not already in flight anywhere, ... respecting the
sliding `BLOCK_DOWNLOAD_WINDOW` to bound how far ahead of current height
we fetch". -/
def FindNextBlocksToDownload (count : Nat) (chainHeight window : Nat)
    (candidates : List CandidateBlock) (s : CRequestManager) : List CandidateBlock :=
  (candidates.filter (fun b =>
    decide (b.height ≤ chainHeight + window) &&
      !(alLookup b.hash s.mapBlocksInFlight).isSome)).take count

/-! ### Reachable states -/

/-- One public request-manager operation. -/
inductive RmStep : CRequestManager → CRequestManager → Prop
  | askFor (k : ObjKind) (h : Hash) (n : NodeId) (prio : Nat) {s : CRequestManager} :
      RmStep s (AskFor k h n prio s)
  | initNode (n : NodeId) {s : CRequestManager} :
      RmStep s (InitializeNodeState n s)
  | markInFlight (n : NodeId) (h : Hash) (now : Micros) {s : CRequestManager} :
      RmStep s (MarkBlockAsInFlight n h now s)
  | sendRequests (txI blkI : Nat) (now : Micros) {s : CRequestManager} :
      RmStep s (SendRequests txI blkI now s).1
  | received (k : ObjKind) (h : Hash) (n : NodeId) {s : CRequestManager} :
      RmStep s (Received k h n s)
  | rejected (k : ObjKind) (h : Hash) (n : NodeId) {s : CRequestManager} :
      RmStep s (Rejected k h n s)
  | reset (h : Hash) {s : CRequestManager} :
      RmStep s (ResetLastBlockRequestTime h s)
  | recordThin (n : NodeId) (now : Micros) {s : CRequestManager} :
      RmStep s (RecordThinTypeRequest n now s)
  | disconnect (n : NodeId) {s : CRequestManager} :
      RmStep s (RemoveNodeState n s)

/-- States reachable from the freshly constructed request manager by the
public operations. -/
inductive Reachable : CRequestManager → Prop
  | start : Reachable CRequestManager.start
  | step {s t : CRequestManager} : Reachable s → RmStep s t → Reachable t

/-! ### Coins database (translated from `txdb.cpp`) -/

/-- The block-storage modes (declared in `txdb.h`, used by `txdb.cpp`);
`toInt` gives the integer that `std::to_string(static_cast<int32_t>(mode))`
stringifies. -/
inductive BlockDBMode
  | SEQUENTIAL_BLOCK_FILES
  | LEVELDB_BLOCK_STORAGE
  | END_STORAGE_OPTIONS
deriving Repr, DecidableEq

def BlockDBMode.toInt : BlockDBMode → Int
  | .SEQUENTIAL_BLOCK_FILES => 0
  | .LEVELDB_BLOCK_STORAGE => 1
  | .END_STORAGE_OPTIONS => 2

/-- A key under which a best-block record is stored: the character key
`DB_BEST_BLOCK = 'B'`, or the string `std::to_string(int32_t(mode))`
(represented by the mode's integer). -/
inductive BestBlockKey
  | bestBlock
  | modeKey (m : Int)
deriving Repr, DecidableEq

/-- Generic first-match lookup for the key-value store. -/
def kvLookup [DecidableEq κ] (k : κ) : List (κ × α) → Option α
  | [] => none
  | (k', v) :: m => if k' = k then some v else kvLookup k m

/-- The global flags `txdb.cpp` consults: the configured `BLOCK_DB_MODE`
and whether `pblockdb` is non-null. -/
structure ChainGlobals where
  BLOCK_DB_MODE : BlockDBMode
  pblockdb : Bool
deriving Repr, DecidableEq

abbrev OutPoint := Nat × Nat

/-- A utxo entry.  The `Coin` class is declared outside the provided
sources; only its spentness is consulted by `BatchWrite`, the payload
stands for the serialized remainder. -/
structure Coin where
  isSpent : Bool
  payload : Nat
deriving Repr, DecidableEq

/-- One `CCoinsCacheEntry` of a `CCoinsMap`: the coin and whether the
`DIRTY` flag is set. -/
structure CCoinsCacheEntry where
  coin : Coin
  dirty : Bool
deriving Repr, DecidableEq

abbrev CCoinsMap := List (OutPoint × CCoinsCacheEntry)

/-- The `chainstate` leveldb viewed as two disjoint key spaces: the
best-block records (keys `'B'` / mode strings) and the `DB_COIN`-prefixed
coin records. -/
structure CoinsDB where
  bestStore : List (BestBlockKey × Hash)
  coinStore : List (OutPoint × Coin)
deriving Repr, DecidableEq

/-- `db.Write(key, hash)` on a best-block key. -/
def dbWriteBest (k : BestBlockKey) (v : Hash) (db : CoinsDB) : CoinsDB :=
  { db with bestStore := (k, v) :: db.bestStore }

/-- `batch.Write(CoinEntry(&outpoint), coin)`, as committed. -/
def coinWrite (op : OutPoint) (c : Coin) (db : CoinsDB) : CoinsDB :=
  { db with coinStore := (op, c) :: db.coinStore }

/-- `batch.Erase(CoinEntry(&outpoint))`, as committed. -/
def coinErase (op : OutPoint) (db : CoinsDB) : CoinsDB :=
  { db with coinStore := db.coinStore.filter (fun p => decide (p.1 ≠ op)) }

/-- `CCoinsViewDB::_WriteBestBlock(hashBlock)`: when the hash is not null,
write it under the mode-string key if `pblockdb` is active, else under
`DB_BEST_BLOCK`; the key is chosen by the global `BLOCK_DB_MODE`. -/
def _WriteBestBlock (g : ChainGlobals) (hashBlock : Hash) (db : CoinsDB) : CoinsDB :=
  if hashBlock ≠ 0 then
    if g.pblockdb then dbWriteBest (.modeKey g.BLOCK_DB_MODE.toInt) hashBlock db
    else dbWriteBest .bestBlock hashBlock db
  else db

/-- `CCoinsViewDB::_WriteBestBlock(hashBlock, mode)` (the mode-specific
private overload): when `mode != END_STORAGE_OPTIONS`, write under
`DB_BEST_BLOCK` for `SEQUENTIAL_BLOCK_FILES` and under the mode-string key
otherwise; note it performs no null check on the hash. -/
def _WriteBestBlockWithMode (hashBlock : Hash) (mode : BlockDBMode) (db : CoinsDB) : CoinsDB :=
  if mode ≠ .END_STORAGE_OPTIONS then
    if mode = .SEQUENTIAL_BLOCK_FILES then dbWriteBest .bestBlock hashBlock db
    else dbWriteBest (.modeKey mode.toInt) hashBlock db
  else db

/-- `CCoinsViewDB::WriteBestBlock(hashBlock)`: takes the write lock and
calls the one-argument `_WriteBestBlock`. -/
def WriteBestBlock (g : ChainGlobals) (hashBlock : Hash) (db : CoinsDB) : CoinsDB :=
  _WriteBestBlock g hashBlock db

/-- `CCoinsViewDB::WriteBestBlock(hashBlock, mode)` (the public
two-argument overload): its body takes the write lock and calls
`_WriteBestBlock(hashBlock)` — the one-argument version. -/
def WriteBestBlockWithMode (g : ChainGlobals) (hashBlock : Hash) (mode : BlockDBMode)
    (db : CoinsDB) : CoinsDB :=
  _WriteBestBlock g hashBlock db

/-- `CCoinsViewDB::_GetBestBlock()`: read the mode-string key when
`pblockdb` is active, else `DB_BEST_BLOCK`; a failed read returns the null
`uint256`. -/
def _GetBestBlock (g : ChainGlobals) (db : CoinsDB) : Hash :=
  if g.pblockdb then
    match kvLookup (.modeKey g.BLOCK_DB_MODE.toInt) db.bestStore with
    | some h => h
    | none => 0
  else
    match kvLookup .bestBlock db.bestStore with
    | some h => h
    | none => 0

/-- `CCoinsViewDB::GetBestBlock()`: takes the read lock and calls
`_GetBestBlock`. -/
def GetBestBlock (g : ChainGlobals) (db : CoinsDB) : Hash :=
  _GetBestBlock g db

/-- The key the one-argument read/write pair addresses under globals `g`. -/
def bestBlockReadKey (g : ChainGlobals) : BestBlockKey :=
  if g.pblockdb then .modeKey g.BLOCK_DB_MODE.toInt else .bestBlock

/-- `CCoinsViewDB::BatchWrite(mapCoins, hashBlock, ...)`, its effect on
the database: every `DIRTY` cache entry is committed (spent coins erased,
unspent coins written; the interleaved batch flushes commit the same
writes), and the best-block marker is updated via `_WriteBestBlock` only
when `hashBlock` is not null.  The cache-trimming of `mapCoins` and the
returned flag do not touch the database. -/
def BatchWrite (g : ChainGlobals) (mapCoins : CCoinsMap) (hashBlock : Hash)
    (db : CoinsDB) : CoinsDB :=
  let db1 := mapCoins.foldl (fun acc p =>
    if p.2.dirty then
      if p.2.coin.isSpent then coinErase p.1 acc else coinWrite p.1 p.2.coin acc
    else acc) db
  if hashBlock ≠ 0 then _WriteBestBlock g hashBlock db1 else db1

theorem batchWrite_coinLoop_bestStore (db : CoinsDB) (mapCoins : CCoinsMap) :
    (mapCoins.foldl (fun acc p =>
      if p.2.dirty then
        if p.2.coin.isSpent then coinErase p.1 acc else coinWrite p.1 p.2.coin acc
      else acc) db).bestStore = db.bestStore := by
  induction mapCoins generalizing db with
  | nil => rfl
  | cons p mc ih =>
    rw [List.foldl_cons, ih]
    by_cases h1 : p.2.dirty <;> by_cases h2 : p.2.coin.isSpent <;>
      simp [h1, h2, coinErase, coinWrite]

/-- C9: the public two-argument `CCoinsViewDB::WriteBestBlock(hash, mode)`
performs exactly the database write of the one-argument overload: it
dispatches to the one-argument `_WriteBestBlock`, so its mode parameter is
ignored and the key is chosen by the global `BLOCK_DB_MODE`, never by the
mode argument; in particular the mode-specific `_WriteBestBlock(hash,
mode)` is not reached through it (witnessed by a configuration where the
two functions write different keys). -/
theorem c9_writeBestBlock_overload_ignores_mode :
    (∀ (g : ChainGlobals) (h : Hash) (m : BlockDBMode) (db : CoinsDB),
        WriteBestBlockWithMode g h m db = WriteBestBlock g h db) ∧
    (∀ (g : ChainGlobals) (h : Hash) (m m' : BlockDBMode) (db : CoinsDB),
        WriteBestBlockWithMode g h m db = WriteBestBlockWithMode g h m' db) ∧
    WriteBestBlockWithMode ⟨.LEVELDB_BLOCK_STORAGE, true⟩ 5 .SEQUENTIAL_BLOCK_FILES ⟨[], []⟩ ≠
      _WriteBestBlockWithMode 5 .SEQUENTIAL_BLOCK_FILES ⟨[], []⟩ := by
  refine ⟨fun g h m db => rfl, fun g h m m' db => rfl, ?_⟩
  decide

/-- C10: a null (zero) hash makes `_WriteBestBlock` write nothing and
makes `BatchWrite` leave every best-block record untouched; and
`GetBestBlock` returns the null hash whenever the database holds no
best-block record under the key the globals select. -/
theorem c10_null_hash_best_block_frame :
    (∀ (g : ChainGlobals) (db : CoinsDB), _WriteBestBlock g 0 db = db) ∧
    (∀ (g : ChainGlobals) (mc : CCoinsMap) (db : CoinsDB),
        (BatchWrite g mc 0 db).bestStore = db.bestStore) ∧
    (∀ (g : ChainGlobals) (db : CoinsDB),
        kvLookup (bestBlockReadKey g) db.bestStore = none → GetBestBlock g db = 0) := by
  refine ⟨fun g db => rfl, fun g mc db => ?_, fun g db hnone => ?_⟩
  · rw [BatchWrite]
    simp only [ne_eq, not_true_eq_false, if_false]
    exact batchWrite_coinLoop_bestStore db mc
  · rw [GetBestBlock, _GetBestBlock, bestBlockReadKey] at *
    by_cases hp : g.pblockdb
    · rw [if_pos hp] at hnone ⊢
      rw [hnone]
    · rw [if_neg hp] at hnone ⊢
      rw [hnone]

/-- Closed instance of the hypothesis-bearing part of C10: an empty
database holds no best-block record, so `GetBestBlock` returns the null
hash there. -/
theorem c10_null_hash_best_block_frame_witness :
    GetBestBlock ⟨BlockDBMode.SEQUENTIAL_BLOCK_FILES, false⟩ ⟨[], []⟩ = 0 :=
  c10_null_hash_best_block_frame.2.2 ⟨BlockDBMode.SEQUENTIAL_BLOCK_FILES, false⟩ ⟨[], []⟩ rfl

/-! ### Lookup characterizations of the in-flight erase operations -/

/-- The value the erase operations leave for an inner node map: node `n`
filtered out, the entry dropped when that empties it. -/
def eraseNodeVal (n : NodeId) (ns : List NodeId) : Option (List NodeId) :=
  if (ns.filter (fun x => decide (x ≠ n))).isEmpty then none
  else some (ns.filter (fun x => decide (x ≠ n)))

theorem alLookup_erasePair_ne (h n k : Nat) (m : List (Hash × List NodeId))
    (hk : k ≠ h) : alLookup k (erasePair h n m) = alLookup k m := by
  induction m with
  | nil => rfl
  | cons p m ih =>
    cases p with
    | mk h' ns =>
      by_cases h1 : h' = h
      · subst h1
        rw [erasePair, if_pos rfl]
        have hk2 : h' ≠ k := fun he => hk (he.symm ▸ rfl)
        by_cases h2 : (ns.filter (fun x => decide (x ≠ n))).isEmpty
        · rw [if_pos h2, ih, alLookup_cons, if_neg hk2]
        · rw [if_neg h2, alLookup_cons, alLookup_cons, if_neg hk2, if_neg hk2, ih]
      · rw [erasePair, if_neg h1, alLookup_cons, alLookup_cons]
        by_cases h2 : h' = k
        · simp [h2]
        · rw [if_neg h2, if_neg h2, ih]

theorem alLookup_erasePair_eq (h n : Nat) (m : List (Hash × List NodeId))
    (hnd : (keysOf m).Nodup) :
    alLookup h (erasePair h n m) = (alLookup h m).bind (eraseNodeVal n) := by
  induction m with
  | nil => rfl
  | cons p m ih =>
    cases p with
    | mk h' ns =>
      rw [keysOf_cons, List.nodup_cons] at hnd
      obtain ⟨hnotin, hnd2⟩ := hnd
      by_cases h1 : h' = h
      · subst h1
        rw [erasePair, if_pos rfl]
        have habs : alLookup h' m = none :=
          (alLookup_eq_none_iff h' m).2 hnotin
        by_cases h2 : (ns.filter (fun x => decide (x ≠ n))).isEmpty
        · rw [if_pos h2, ih hnd2, habs, alLookup_cons, if_pos rfl]
          rw [Option.none_bind, Option.some_bind, eraseNodeVal, if_pos h2]
        · rw [if_neg h2, alLookup_cons, if_pos rfl, alLookup_cons, if_pos rfl]
          rw [Option.some_bind, eraseNodeVal, if_neg h2]
      · rw [erasePair, if_neg h1, alLookup_cons, if_neg h1, alLookup_cons, if_neg h1]
        exact ih hnd2

theorem alLookup_erasePairAllFor (n k : Nat) (m : List (Hash × List NodeId))
    (hnd : (keysOf m).Nodup) :
    alLookup k (erasePairAllFor n m) = (alLookup k m).bind (eraseNodeVal n) := by
  induction m with
  | nil => rfl
  | cons p m ih =>
    cases p with
    | mk h' ns =>
      rw [keysOf_cons, List.nodup_cons] at hnd
      obtain ⟨hnotin, hnd2⟩ := hnd
      rw [erasePairAllFor]
      by_cases h1 : h' = k
      · subst h1
        have habs : alLookup h' m = none :=
          (alLookup_eq_none_iff h' m).2 hnotin
        by_cases h2 : (ns.filter (fun x => decide (x ≠ n))).isEmpty
        · rw [if_pos h2, ih hnd2, habs, alLookup_cons, if_pos rfl]
          rw [Option.none_bind, Option.some_bind, eraseNodeVal, if_pos h2]
        · rw [if_neg h2, alLookup_cons, if_pos rfl, alLookup_cons, if_pos rfl]
          rw [Option.some_bind, eraseNodeVal, if_neg h2]
      · by_cases h2 : (ns.filter (fun x => decide (x ≠ n))).isEmpty
        · rw [if_pos h2, ih hnd2, alLookup_cons, if_neg h1]
        · rw [if_neg h2, alLookup_cons, if_neg h1, alLookup_cons, if_neg h1]
          exact ih hnd2

theorem keysOf_erasePair_sublist (h n : Nat) (m : List (Hash × List NodeId)) :
    (keysOf (erasePair h n m)).Sublist (keysOf m) := by
  induction m with
  | nil => simp [erasePair]
  | cons p m ih =>
    cases p with
    | mk h' ns =>
      by_cases h1 : h' = h
      · subst h1
        rw [erasePair, if_pos rfl]
        by_cases h2 : (ns.filter (fun x => decide (x ≠ n))).isEmpty
        · rw [if_pos h2, keysOf_cons]
          exact ih.cons _
        · rw [if_neg h2, keysOf_cons, keysOf_cons]
          exact ih.cons₂ _
      · rw [erasePair, if_neg h1, keysOf_cons, keysOf_cons]
        exact ih.cons₂ _

theorem keysOf_erasePairAllFor_sublist (n : Nat) (m : List (Hash × List NodeId)) :
    (keysOf (erasePairAllFor n m)).Sublist (keysOf m) := by
  induction m with
  | nil => simp [erasePairAllFor]
  | cons p m ih =>
    cases p with
    | mk h' ns =>
      rw [erasePairAllFor]
      by_cases h2 : (ns.filter (fun x => decide (x ≠ n))).isEmpty
      · rw [if_pos h2, keysOf_cons]
        exact ih.cons _
      · rw [if_neg h2, keysOf_cons, keysOf_cons]
        exact ih.cons₂ _

theorem keysOf_mapVal (g : Nat → α → α) (m : List (Nat × α)) :
    keysOf (m.map (fun p => (p.1, g p.1 p.2))) = keysOf m := by
  induction m with
  | nil => rfl
  | cons p m ih =>
    rw [List.map_cons, keysOf_cons, keysOf_cons]
    exact congrArg (p.1 :: ·) ih

theorem not_isEmpty_of_mem {l : List α} {a : α} (h : a ∈ l) : ¬l.isEmpty = true := by
  cases l with
  | nil => simp at h
  | cons b l => simp

theorem ne_nil_of_not_isEmpty {l : List α} (h : ¬l.isEmpty = true) : l ≠ [] := by
  intro he; subst he; simp at h

/-! ### The cross-map invariant (claims C1 and C8)

`MapsWF` collects the well-formedness facts about the four tracking maps:
distinct keys, non-empty inner node maps, the at-most-one-in-flight bound
on `mapBlocksInFlight`, and the two directions of the
`mapBlocksInFlight` / `vBlocksInFlight` mirror. -/

structure MapsWF (txm blkm : List (Hash × CUnknownObj))
    (bifm : List (Hash × List NodeId))
    (ndm : List (NodeId × CRequestManagerNodeState)) : Prop where
  txKeys : (keysOf txm).Nodup
  blkKeys : (keysOf blkm).Nodup
  bifKeys : (keysOf bifm).Nodup
  nodeKeys : (keysOf ndm).Nodup
  noEmpty : ∀ h ns, alLookup h bifm = some ns → ns ≠ []
  atMostOne : ∀ h ns, alLookup h bifm = some ns → ns.length ≤ 1
  fwd : ∀ h ns, alLookup h bifm = some ns → ∀ nd ∈ ns,
      ∃ st, alLookup nd ndm = some st ∧
        st.vBlocksInFlight.countP (fun qb => decide (qb.hash = h)) = 1
  rev : ∀ nd st, alLookup nd ndm = some st → ∀ qb ∈ st.vBlocksInFlight,
      ∃ ns, alLookup qb.hash bifm = some ns ∧ nd ∈ ns

/-- The invariant of a request-manager state. -/
def Invariant (s : CRequestManager) : Prop :=
  MapsWF s.mapTxnInfo s.mapBlkInfo s.mapBlocksInFlight s.mapRequestManagerNodeState

/-- The object maps are constrained only through their key lists. -/
theorem MapsWF.withInfo {txm blkm bifm ndm} {txm2 blkm2 : List (Hash × CUnknownObj)}
    (w : MapsWF txm blkm bifm ndm)
    (h1 : (keysOf txm2).Nodup) (h2 : (keysOf blkm2).Nodup) :
    MapsWF txm2 blkm2 bifm ndm :=
  ⟨h1, h2, w.bifKeys, w.nodeKeys, w.noEmpty, w.atMostOne, w.fwd, w.rev⟩

/-- Counting hits of hash `g` is unaffected by filtering away hash `h`
when `g ≠ h`. -/
theorem countP_filter_ne_hash (v : List QueuedBlock) (g h : Hash) (hne : g ≠ h) :
    (v.filter (fun qb => decide (qb.hash ≠ h))).countP (fun qb => decide (qb.hash = g)) =
      v.countP (fun qb => decide (qb.hash = g)) := by
  rw [List.countP_filter]
  apply List.countP_congr
  intro qb _
  by_cases hq : qb.hash = g
  · have : qb.hash ≠ h := fun he => hne (hq ▸ he)
    simp [hq, this, hne]
  · simp [hq]

/-- `MapBlocksInFlightErase` (at the level of the two in-flight maps)
preserves the invariant. -/
theorem MapsWF.mbErase {txm blkm bifm ndm} (h : Hash) (n : NodeId)
    (w : MapsWF txm blkm bifm ndm) :
    MapsWF txm blkm (erasePair h n bifm)
      (alUpdate n (fun st =>
        { st with
          vBlocksInFlight := st.vBlocksInFlight.filter (fun qb => decide (qb.hash ≠ h)),
          nBlocksInFlight :=
            (st.vBlocksInFlight.filter (fun qb => decide (qb.hash ≠ h))).length }) ndm) := by
  have hbif : ∀ k, alLookup k (erasePair h n bifm) =
      if k = h then (alLookup h bifm).bind (eraseNodeVal n) else alLookup k bifm := by
    intro k
    by_cases hk : k = h
    · subst hk; rw [if_pos rfl]; exact alLookup_erasePair_eq k n bifm w.bifKeys
    · rw [if_neg hk]; exact alLookup_erasePair_ne h n k bifm hk
  refine ⟨w.txKeys, w.blkKeys,
    w.bifKeys.sublist (keysOf_erasePair_sublist h n bifm),
    by rw [keysOf_alUpdate]; exact w.nodeKeys, ?_, ?_, ?_, ?_⟩
  · -- noEmpty
    intro h' ns hl
    rw [hbif] at hl
    by_cases hk : h' = h
    · rw [if_pos hk] at hl
      cases hold : alLookup h bifm with
      | none => rw [hold] at hl; simp at hl
      | some ns0 =>
          rw [hold, Option.some_bind, eraseNodeVal] at hl
          by_cases he : ((ns0.filter (fun x => decide (x ≠ n))).isEmpty : Bool)
          · rw [if_pos he] at hl; simp at hl
          · rw [if_neg he] at hl
            cases hl
            exact ne_nil_of_not_isEmpty he
    · rw [if_neg hk] at hl
      exact w.noEmpty h' ns hl
  · -- atMostOne
    intro h' ns hl
    rw [hbif] at hl
    by_cases hk : h' = h
    · rw [if_pos hk] at hl
      cases hold : alLookup h bifm with
      | none => rw [hold] at hl; simp at hl
      | some ns0 =>
          rw [hold, Option.some_bind, eraseNodeVal] at hl
          by_cases he : ((ns0.filter (fun x => decide (x ≠ n))).isEmpty : Bool)
          · rw [if_pos he] at hl; simp at hl
          · rw [if_neg he] at hl
            cases hl
            exact le_trans (List.length_filter_le _ _) (w.atMostOne h ns0 hold)
    · rw [if_neg hk] at hl
      exact w.atMostOne h' ns hl
  · -- fwd
    intro h' ns hl nd hmem
    rw [hbif] at hl
    by_cases hk : h' = h
    · subst hk
      rw [if_pos rfl] at hl
      cases hold : alLookup h' bifm with
      | none => rw [hold] at hl; simp at hl
      | some ns0 =>
          rw [hold, Option.some_bind, eraseNodeVal] at hl
          by_cases he : ((ns0.filter (fun x => decide (x ≠ n))).isEmpty : Bool)
          · rw [if_pos he] at hl; simp at hl
          · rw [if_neg he] at hl
            cases hl
            have hmem2 := List.mem_filter.1 hmem
            have hndn : nd ≠ n := by simpa using hmem2.2
            obtain ⟨st, hst, hcnt⟩ := w.fwd h' ns0 hold nd hmem2.1
            refine ⟨st, ?_, hcnt⟩
            rw [alLookup_alUpdate, if_neg (fun he2 => hndn he2.symm)]
            exact hst
    · rw [if_neg hk] at hl
      obtain ⟨st, hst, hcnt⟩ := w.fwd h' ns hl nd hmem
      by_cases hnd : n = nd
      · subst hnd
        refine ⟨_, by rw [alLookup_alUpdate, if_pos rfl, hst]; rfl, ?_⟩
        exact (countP_filter_ne_hash st.vBlocksInFlight h' h hk).trans hcnt
      · refine ⟨st, ?_, hcnt⟩
        rw [alLookup_alUpdate, if_neg hnd]
        exact hst
  · -- rev
    intro nd st' hl qb hqb
    rw [alLookup_alUpdate] at hl
    by_cases hnd : n = nd
    · rw [if_pos hnd] at hl
      cases hold : alLookup nd ndm with
      | none => rw [hold] at hl; simp at hl
      | some st =>
          rw [hold] at hl
          cases hl
          have hqb2 := List.mem_filter.1 hqb
          have hqh : qb.hash ≠ h := by simpa using hqb2.2
          obtain ⟨ns, hns, hmem⟩ := w.rev nd st hold qb hqb2.1
          refine ⟨ns, ?_, hmem⟩
          rw [hbif, if_neg hqh]
          exact hns
    · rw [if_neg hnd] at hl
      obtain ⟨ns, hns, hmem⟩ := w.rev nd st' hl qb hqb
      by_cases hqh : qb.hash = h
      · subst hqh
        have hndn : nd ≠ n := fun he => hnd he.symm
        have hmf : nd ∈ ns.filter (fun x => decide (x ≠ n)) :=
          List.mem_filter.2 ⟨hmem, by simpa using hndn⟩
        refine ⟨ns.filter (fun x => decide (x ≠ n)), ?_, hmf⟩
        rw [hbif, if_pos rfl, hns, Option.some_bind, eraseNodeVal,
          if_neg (not_isEmpty_of_mem hmf)]
      · refine ⟨ns, ?_, hmem⟩
        rw [hbif, if_neg hqh]
        exact hns

theorem keysOf_map_fst_eq (f : Nat × α → Nat × α) (m : List (Nat × α))
    (hf : ∀ p, (f p).1 = p.1) : keysOf (m.map f) = keysOf m := by
  induction m with
  | nil => rfl
  | cons p m ih =>
    rw [List.map_cons, keysOf_cons, keysOf_cons, hf]
    exact congrArg (p.1 :: ·) ih

/-- The insert case of `MarkBlockAsInFlight` preserves the invariant. -/
theorem MapsWF.markInsert {txm blkm bifm ndm} (h : Hash) (n : NodeId) (now : Micros)
    {st0 : CRequestManagerNodeState}
    (hnone : alLookup h bifm = none)
    (hst0 : alLookup n ndm = some st0)
    (w : MapsWF txm blkm bifm ndm) :
    MapsWF txm blkm ((h, [n]) :: bifm)
      (alUpdate n (fun st =>
        { st with
          vBlocksInFlight := st.vBlocksInFlight ++ [⟨h, now⟩],
          nBlocksInFlight := st.nBlocksInFlight + 1,
          nDownloadingSince :=
            if st.vBlocksInFlight.isEmpty then now else st.nDownloadingSince }) ndm) := by
  have hcount0 : ∀ st, alLookup n ndm = some st →
      st.vBlocksInFlight.countP (fun qb => decide (qb.hash = h)) = 0 := by
    intro st hst
    rw [List.countP_eq_zero]
    intro qb hqb hdec
    have hqh : qb.hash = h := of_decide_eq_true hdec
    obtain ⟨ns2, hns2, _⟩ := w.rev n st hst qb hqb
    rw [hqh, hnone] at hns2
    cases hns2
  refine ⟨w.txKeys, w.blkKeys,
    List.nodup_cons.2 ⟨(alLookup_eq_none_iff h bifm).1 hnone, w.bifKeys⟩,
    by rw [keysOf_alUpdate]; exact w.nodeKeys, ?_, ?_, ?_, ?_⟩
  · -- noEmpty
    intro h' ns hl
    rw [alLookup_cons] at hl
    by_cases hk : h = h'
    · rw [if_pos hk] at hl
      cases hl; simp
    · rw [if_neg hk] at hl
      exact w.noEmpty h' ns hl
  · -- atMostOne
    intro h' ns hl
    rw [alLookup_cons] at hl
    by_cases hk : h = h'
    · rw [if_pos hk] at hl
      cases hl; simp
    · rw [if_neg hk] at hl
      exact w.atMostOne h' ns hl
  · -- fwd
    intro h' ns hl nd hmem
    rw [alLookup_cons] at hl
    by_cases hk : h = h'
    · rw [if_pos hk] at hl
      cases hl
      have hndn : nd = n := by simpa using hmem
      subst hndn
      refine ⟨_, by rw [alLookup_alUpdate, if_pos rfl, hst0]; rfl, ?_⟩
      subst hk
      rw [List.countP_append, hcount0 st0 hst0, List.countP_cons, List.countP_nil]
      simp
    · rw [if_neg hk] at hl
      obtain ⟨st, hst, hcnt⟩ := w.fwd h' ns hl nd hmem
      by_cases hnd : n = nd
      · subst hnd
        have hse : st = st0 := by rw [hst] at hst0; cases hst0; rfl
        subst hse
        refine ⟨_, by rw [alLookup_alUpdate, if_pos rfl, hst]; rfl, ?_⟩
        rw [List.countP_append, hcnt, List.countP_cons, List.countP_nil]
        have : ¬((⟨h, now⟩ : QueuedBlock).hash = h') := fun he => hk he
        simp [this]
      · refine ⟨st, ?_, hcnt⟩
        rw [alLookup_alUpdate, if_neg hnd]
        exact hst
  · -- rev
    intro nd st' hl qb hqb
    rw [alLookup_alUpdate] at hl
    by_cases hnd : n = nd
    · rw [if_pos hnd] at hl
      cases hold : alLookup nd ndm with
      | none => rw [hold] at hl; cases hl
      | some st =>
          rw [hold] at hl
          cases hl
          rcases List.mem_append.1 hqb with hqb1 | hqb1
          · obtain ⟨ns2, hns2, hm2⟩ := w.rev nd st hold qb hqb1
            have hqh : qb.hash ≠ h := by
              intro he; rw [he, hnone] at hns2; cases hns2
            refine ⟨ns2, ?_, hm2⟩
            rw [alLookup_cons, if_neg (fun he => hqh he.symm)]
            exact hns2
          · have hq : qb = ⟨h, now⟩ := by simpa using hqb1
            subst hq
            refine ⟨[n], by rw [alLookup_cons, if_pos rfl], ?_⟩
            subst hnd
            exact List.mem_singleton.2 rfl
    · rw [if_neg hnd] at hl
      obtain ⟨ns2, hns2, hm2⟩ := w.rev nd st' hl qb hqb
      have hqh : qb.hash ≠ h := by
        intro he; rw [he, hnone] at hns2; cases hns2
      refine ⟨ns2, ?_, hm2⟩
      rw [alLookup_cons, if_neg (fun he => hqh he.symm)]
      exact hns2

/-- Inserting a fresh node state preserves the invariant. -/
theorem MapsWF.initNode {txm blkm bifm ndm} (n : NodeId)
    (hnone : alLookup n ndm = none) (w : MapsWF txm blkm bifm ndm) :
    MapsWF txm blkm bifm ((n, CRequestManagerNodeState.fresh) :: ndm) := by
  refine ⟨w.txKeys, w.blkKeys, w.bifKeys,
    List.nodup_cons.2 ⟨(alLookup_eq_none_iff n ndm).1 hnone, w.nodeKeys⟩,
    w.noEmpty, w.atMostOne, ?_, ?_⟩
  · intro h ns hl nd hmem
    obtain ⟨st, hst, hcnt⟩ := w.fwd h ns hl nd hmem
    have hne : n ≠ nd := by
      intro he; rw [he, hst] at hnone; cases hnone
    exact ⟨st, by rw [alLookup_cons, if_neg hne]; exact hst, hcnt⟩
  · intro nd st hl qb hqb
    rw [alLookup_cons] at hl
    by_cases hne : n = nd
    · rw [if_pos hne] at hl
      cases hl
      simp [CRequestManagerNodeState.fresh] at hqb
    · rw [if_neg hne] at hl
      exact w.rev nd st hl qb hqb

/-- Updating a node state without touching its in-flight list preserves
the invariant. -/
theorem MapsWF.updateNodePreserveV {txm blkm bifm ndm} (n : NodeId)
    (f : CRequestManagerNodeState → CRequestManagerNodeState)
    (hf : ∀ st, (f st).vBlocksInFlight = st.vBlocksInFlight)
    (w : MapsWF txm blkm bifm ndm) :
    MapsWF txm blkm bifm (alUpdate n f ndm) := by
  refine ⟨w.txKeys, w.blkKeys, w.bifKeys,
    by rw [keysOf_alUpdate]; exact w.nodeKeys,
    w.noEmpty, w.atMostOne, ?_, ?_⟩
  · intro h ns hl nd hmem
    obtain ⟨st, hst, hcnt⟩ := w.fwd h ns hl nd hmem
    by_cases hne : n = nd
    · refine ⟨f st, ?_, ?_⟩
      · rw [alLookup_alUpdate, if_pos hne, hst]; rfl
      · rw [hf]; exact hcnt
    · exact ⟨st, by rw [alLookup_alUpdate, if_neg hne]; exact hst, hcnt⟩
  · intro nd st hl qb hqb
    rw [alLookup_alUpdate] at hl
    by_cases hne : n = nd
    · rw [if_pos hne] at hl
      cases hold : alLookup nd ndm with
      | none => rw [hold] at hl; cases hl
      | some st1 =>
          rw [hold] at hl
          have hse : st = f st1 := by
            have := hl.symm
            simpa using this
          subst hse
          rw [hf] at hqb
          exact w.rev nd st1 hold qb hqb
    · rw [if_neg hne] at hl
      exact w.rev nd st hl qb hqb

/-- Disconnect handling at the level of the two in-flight maps preserves
the invariant; the object maps may be replaced by any maps with distinct
keys. -/
theorem MapsWF.removeNode {txm blkm bifm ndm} (n : NodeId)
    (w : MapsWF txm blkm bifm ndm)
    {txm2 blkm2 : List (Hash × CUnknownObj)}
    (h1 : (keysOf txm2).Nodup) (h2 : (keysOf blkm2).Nodup) :
    MapsWF txm2 blkm2 (erasePairAllFor n bifm) (alErase n ndm) := by
  have hbif : ∀ k, alLookup k (erasePairAllFor n bifm) =
      (alLookup k bifm).bind (eraseNodeVal n) :=
    fun k => alLookup_erasePairAllFor n k bifm w.bifKeys
  refine ⟨h1, h2, w.bifKeys.sublist (keysOf_erasePairAllFor_sublist n bifm),
    w.nodeKeys.sublist (keysOf_alErase_sublist n ndm), ?_, ?_, ?_, ?_⟩
  · -- noEmpty
    intro h ns hl
    rw [hbif] at hl
    cases hold : alLookup h bifm with
    | none => rw [hold] at hl; cases hl
    | some ns0 =>
        rw [hold, Option.some_bind, eraseNodeVal] at hl
        by_cases he : ((ns0.filter (fun x => decide (x ≠ n))).isEmpty : Bool)
        · rw [if_pos he] at hl; cases hl
        · rw [if_neg he] at hl
          cases hl
          exact ne_nil_of_not_isEmpty he
  · -- atMostOne
    intro h ns hl
    rw [hbif] at hl
    cases hold : alLookup h bifm with
    | none => rw [hold] at hl; cases hl
    | some ns0 =>
        rw [hold, Option.some_bind, eraseNodeVal] at hl
        by_cases he : ((ns0.filter (fun x => decide (x ≠ n))).isEmpty : Bool)
        · rw [if_pos he] at hl; cases hl
        · rw [if_neg he] at hl
          cases hl
          exact le_trans (List.length_filter_le _ _) (w.atMostOne h ns0 hold)
  · -- fwd
    intro h ns hl nd hmem
    rw [hbif] at hl
    cases hold : alLookup h bifm with
    | none => rw [hold] at hl; cases hl
    | some ns0 =>
        rw [hold, Option.some_bind, eraseNodeVal] at hl
        by_cases he : ((ns0.filter (fun x => decide (x ≠ n))).isEmpty : Bool)
        · rw [if_pos he] at hl; cases hl
        · rw [if_neg he] at hl
          cases hl
          have hmem2 := List.mem_filter.1 hmem
          have hndn : nd ≠ n := by simpa using hmem2.2
          obtain ⟨st, hst, hcnt⟩ := w.fwd h ns0 hold nd hmem2.1
          refine ⟨st, ?_, hcnt⟩
          rw [alLookup_alErase, if_neg (fun he2 => hndn he2.symm)]
          exact hst
  · -- rev
    intro nd st hl qb hqb
    rw [alLookup_alErase] at hl
    by_cases hne : n = nd
    · rw [if_pos hne] at hl; cases hl
    · rw [if_neg hne] at hl
      obtain ⟨ns, hns, hmem⟩ := w.rev nd st hl qb hqb
      have hndn : nd ≠ n := fun he => hne he.symm
      have hmf : nd ∈ ns.filter (fun x => decide (x ≠ n)) :=
        List.mem_filter.2 ⟨hmem, by simpa using hndn⟩
      refine ⟨ns.filter (fun x => decide (x ≠ n)), ?_, hmf⟩
      rw [hbif, hns, Option.some_bind, eraseNodeVal, if_neg (not_isEmpty_of_mem hmf)]

/-! ### Per-operation invariant preservation -/

theorem nodup_alUpdate (k : Nat) (f : α → α) (m : List (Nat × α))
    (h : (keysOf m).Nodup) : (keysOf (alUpdate k f m)).Nodup := by
  rw [keysOf_alUpdate]; exact h

theorem nodup_alErase (k : Nat) (m : List (Nat × α))
    (h : (keysOf m).Nodup) : (keysOf (alErase k m)).Nodup :=
  h.sublist (keysOf_alErase_sublist k m)

theorem invariant_askFor (k : ObjKind) (h : Hash) (n : NodeId) (prio : Nat)
    {s : CRequestManager} (w : Invariant s) : Invariant (AskFor k h n prio s) := by
  unfold AskFor
  split
  · cases k
    · exact w.withInfo (nodup_alUpdate _ _ _ w.txKeys) w.blkKeys
    · exact w.withInfo w.txKeys (nodup_alUpdate _ _ _ w.blkKeys)
  · rename_i hl
    have hk : h ∉ keysOf (infoMap k s) := (alLookup_eq_none_iff _ _).1 hl
    cases k
    · exact w.withInfo (List.nodup_cons.2 ⟨hk, w.txKeys⟩) w.blkKeys
    · exact w.withInfo w.txKeys (List.nodup_cons.2 ⟨hk, w.blkKeys⟩)

theorem invariant_initNode (n : NodeId) {s : CRequestManager}
    (w : Invariant s) : Invariant (InitializeNodeState n s) := by
  rw [InitializeNodeState]
  cases hl : alLookup n s.mapRequestManagerNodeState with
  | some st => exact w
  | none => exact w.initNode n hl

theorem invariant_markInFlight (n : NodeId) (h : Hash) (now : Micros)
    {s : CRequestManager} (w : Invariant s) : Invariant (MarkBlockAsInFlight n h now s) := by
  rw [MarkBlockAsInFlight]
  by_cases hg : (alLookup h s.mapBlocksInFlight).isSome
  · rw [if_pos hg]; exact w
  · rw [if_neg hg]
    have hnone : alLookup h s.mapBlocksInFlight = none :=
      Option.not_isSome_iff_eq_none.1 hg
    cases hnd : alLookup n s.mapRequestManagerNodeState with
    | none => exact w
    | some st0 => exact w.markInsert h n now hnone hnd

theorem invariant_mbEraseState (h : Hash) (n : NodeId) {s : CRequestManager}
    (w : Invariant s) : Invariant (MapBlocksInFlightErase h n s) :=
  w.mbErase h n

theorem invariant_received (k : ObjKind) (h : Hash) (n : NodeId)
    {s : CRequestManager} (w : Invariant s) : Invariant (Received k h n s) := by
  have w1 : Invariant (MapBlocksInFlightErase h n s) := w.mbErase h n
  unfold Received
  split
  · exact w1
  · cases k
    · exact w1.withInfo (w1.txKeys.sublist (keysOf_alErase_sublist h _)) w1.blkKeys
    · exact w1.withInfo w1.txKeys (w1.blkKeys.sublist (keysOf_alErase_sublist h _))

theorem invariant_rejected (k : ObjKind) (h : Hash) (n : NodeId)
    {s : CRequestManager} (w : Invariant s) : Invariant (Rejected k h n s) := by
  unfold Rejected
  split
  · exact w
  · rename_i o hl
    split
    · cases k
      · exact w.withInfo (nodup_alErase h s.mapTxnInfo w.txKeys) w.blkKeys
      · exact w.withInfo w.txKeys (nodup_alErase h s.mapBlkInfo w.blkKeys)
    · cases k
      · exact w.withInfo
          (nodup_alUpdate h (fun o2 : CUnknownObj =>
            { o2 with
              availableFrom := o.availableFrom.filter (fun src => decide (src.node ≠ n)),
              lastRequestTime := 0 }) s.mapTxnInfo w.txKeys) w.blkKeys
      · exact w.withInfo w.txKeys
          (nodup_alUpdate h (fun o2 : CUnknownObj =>
            { o2 with
              availableFrom := o.availableFrom.filter (fun src => decide (src.node ≠ n)),
              lastRequestTime := 0 }) s.mapBlkInfo w.blkKeys)

theorem invariant_reset (h : Hash) {s : CRequestManager}
    (w : Invariant s) : Invariant (ResetLastBlockRequestTime h s) :=
  w.withInfo w.txKeys
    (nodup_alUpdate h (fun o : CUnknownObj => { o with lastRequestTime := 0 })
      s.mapBlkInfo w.blkKeys)

theorem invariant_recordThin (n : NodeId) (now : Micros) {s : CRequestManager}
    (w : Invariant s) : Invariant (RecordThinTypeRequest n now s) :=
  w.updateNodePreserveV n
    (fun st => { st with thinTypeRequestTimes := now :: st.thinTypeRequestTimes })
    (fun st => rfl)

theorem invariant_removeNode (n : NodeId) {s : CRequestManager}
    (w : Invariant s) : Invariant (RemoveNodeState n s) := by
  have h1 : keysOf (RemoveNodeState n s).mapTxnInfo = keysOf s.mapTxnInfo :=
    keysOf_map_fst_eq _ _ (fun p => rfl)
  have h2 : keysOf (RemoveNodeState n s).mapBlkInfo = keysOf s.mapBlkInfo :=
    keysOf_map_fst_eq _ _ (fun p => rfl)
  refine MapsWF.removeNode n w ?_ ?_
  · rw [h1]; exact w.txKeys
  · rw [h2]; exact w.blkKeys

theorem invariant_clearInFlightFor (h : Hash) {s : CRequestManager}
    (w : Invariant s) : Invariant (clearInFlightFor h s) := by
  rw [clearInFlightFor]
  cases hl : alLookup h s.mapBlocksInFlight with
  | none => exact w
  | some ns =>
      cases ns with
      | nil => exact w
      | cons nd t => exact w.mbErase h nd

theorem invariant_issueOne (k : ObjKind) (intv : Nat) (now : Micros) (h : Hash)
    {s : CRequestManager} (w : Invariant s) : Invariant (issueOne k intv now h s).1 := by
  unfold issueOne
  split
  · exact w
  · rename_i o hl
    split
    · split
      · exact w
      · rename_i src hsel
        cases k
        · exact w.withInfo
            (nodup_alUpdate h (fun o2 : CUnknownObj =>
              { o2 with
                lastRequestTime := now,
                outstandingReqs := o2.outstandingReqs + 1,
                availableFrom := bumpSource src.node o2.availableFrom })
              s.mapTxnInfo w.txKeys) w.blkKeys
        · exact invariant_markInFlight _ _ _ (invariant_clearInFlightFor _
            (w.withInfo w.txKeys
              (nodup_alUpdate h (fun o2 : CUnknownObj =>
                { o2 with
                  lastRequestTime := now,
                  outstandingReqs := o2.outstandingReqs + 1,
                  availableFrom := bumpSource src.node o2.availableFrom })
                s.mapBlkInfo w.blkKeys)))
    · exact w

theorem invariant_sendLoop (k : ObjKind) (intv : Nat) (now : Micros) (hs : List Hash)
    {s : CRequestManager} (w : Invariant s) : Invariant (sendLoop k intv now hs s).1 := by
  induction hs generalizing s with
  | nil => exact w
  | cons h t ih => exact ih (invariant_issueOne k intv now h w)

theorem invariant_sendRequests (txI blkI : Nat) (now : Micros) {s : CRequestManager}
    (w : Invariant s) : Invariant (SendRequests txI blkI now s).1 :=
  invariant_sendLoop _ _ _ _ (invariant_sendLoop _ _ _ _ w)

/-- Every reachable request-manager state satisfies the invariant. -/
theorem reachable_invariant {s : CRequestManager} (hr : Reachable s) : Invariant s := by
  induction hr with
  | start =>
      refine ⟨List.nodup_nil, List.nodup_nil, List.nodup_nil, List.nodup_nil,
        ?_, ?_, ?_, ?_⟩
      · intro h ns hl; cases hl
      · intro h ns hl; cases hl
      · intro h ns hl; cases hl
      · intro nd st hl; cases hl
  | step hr hstep ih =>
      cases hstep with
      | askFor k h n prio => exact invariant_askFor k h n prio ih
      | initNode n => exact invariant_initNode n ih
      | markInFlight n h now => exact invariant_markInFlight n h now ih
      | sendRequests txI blkI now => exact invariant_sendRequests txI blkI now ih
      | received k h n => exact invariant_received k h n ih
      | rejected k h n => exact invariant_rejected k h n ih
      | reset h => exact invariant_reset h ih
      | recordThin n now => exact invariant_recordThin n now ih
      | disconnect n => exact invariant_removeNode n ih

/-! ### Claim C1: at most one peer in flight per object -/

/-- Boolean check: no hash of `mapBlocksInFlight` is held by more than one
peer. -/
def atMostOneInFlight (s : CRequestManager) : Bool :=
  s.mapBlocksInFlight.all (fun p => decide (p.2.length ≤ 1))

/-- C1: in every reachable state of the request manager, for every object
hash, at most one peer has that object marked in-flight — the count of
peers holding an outstanding request for the same hash never exceeds 1,
after every operation (`AskFor`, `MarkBlockAsInFlight`, `SendRequests`,
`Received`, `Rejected`, disconnect handling). -/
theorem c1_at_most_one_in_flight {s : CRequestManager} (hr : Reachable s) :
    atMostOneInFlight s = true := by
  have w := reachable_invariant hr
  rw [atMostOneInFlight, List.all_eq_true]
  intro p hp
  have hl : alLookup p.1 s.mapBlocksInFlight = some p.2 :=
    alLookup_of_mem_nodup w.bifKeys hp
  exact decide_eq_true (w.atMostOne p.1 p.2 hl)

/-- Closed instance of C1 at a concrete reachable state with one block
marked in flight. -/
theorem c1_at_most_one_in_flight_witness :
    atMostOneInFlight
      (MarkBlockAsInFlight 1 7 100
        (AskFor ObjKind.blk 7 1 0
          (InitializeNodeState 1 CRequestManager.start))) = true :=
  c1_at_most_one_in_flight
    (Reachable.step
      (Reachable.step
        (Reachable.step Reachable.start (RmStep.initNode 1))
        (RmStep.askFor ObjKind.blk 7 1 0))
      (RmStep.markInFlight 1 7 100))

/-! ### Claim C8: the in-flight mirror correspondence -/

/-- Boolean check of the mirror: every `mapBlocksInFlight[hash][nodeid]`
pair corresponds to exactly one `QueuedBlock` of that node's
`vBlocksInFlight`, and every `QueuedBlock` in a node's list has its pair
in `mapBlocksInFlight`. -/
def inFlightMirrorOK (s : CRequestManager) : Bool :=
  (s.mapBlocksInFlight.all (fun p => p.2.all (fun nd =>
    match alLookup nd s.mapRequestManagerNodeState with
    | some st => st.vBlocksInFlight.countP (fun qb => decide (qb.hash = p.1)) == 1
    | none => false))) &&
  (s.mapRequestManagerNodeState.all (fun q => q.2.vBlocksInFlight.all (fun qb =>
    match alLookup qb.hash s.mapBlocksInFlight with
    | some ns => ns.contains q.1
    | none => false)))

/-- C8: in every reachable state, every `QueuedBlock` entry in a peer's
`vBlocksInFlight` list has a mirrored `mapBlocksInFlight[hash][nodeid]`
entry referring to that entry, and conversely every `mapBlocksInFlight`
entry refers to a live list entry of the corresponding peer; every
operation that inserts or removes in-flight blocks preserves the
correspondence. -/
theorem c8_in_flight_mirror {s : CRequestManager} (hr : Reachable s) :
    inFlightMirrorOK s = true := by
  have w := reachable_invariant hr
  rw [inFlightMirrorOK, Bool.and_eq_true, List.all_eq_true, List.all_eq_true]
  constructor
  · intro p hp
    rw [List.all_eq_true]
    intro nd hnd
    have hl : alLookup p.1 s.mapBlocksInFlight = some p.2 :=
      alLookup_of_mem_nodup w.bifKeys hp
    obtain ⟨st, hst, hcnt⟩ := w.fwd p.1 p.2 hl nd hnd
    rw [hst]
    exact beq_iff_eq.2 hcnt
  · intro q hq
    rw [List.all_eq_true]
    intro qb hqb
    have hl : alLookup q.1 s.mapRequestManagerNodeState = some q.2 :=
      alLookup_of_mem_nodup w.nodeKeys hq
    obtain ⟨ns, hns, hmem⟩ := w.rev q.1 q.2 hl qb hqb
    rw [hns]
    exact List.elem_eq_true_of_mem hmem

/-- Closed instance of C8 at a concrete reachable state with one block
marked in flight and one received. -/
theorem c8_in_flight_mirror_witness :
    inFlightMirrorOK
      (Received ObjKind.blk 9 2
        (MarkBlockAsInFlight 2 9 50
          (AskFor ObjKind.blk 9 2 0
            (InitializeNodeState 2 CRequestManager.start)))) = true :=
  c8_in_flight_mirror
    (Reachable.step
      (Reachable.step
        (Reachable.step
          (Reachable.step Reachable.start (RmStep.initNode 2))
          (RmStep.askFor ObjKind.blk 9 2 0))
        (RmStep.markInFlight 2 9 50))
      (RmStep.received ObjKind.blk 9 2))

/-! ### Claim C3: idempotent receipt -/

theorem filter_idem (p : α → Bool) (l : List α) :
    (l.filter p).filter p = l.filter p :=
  List.filter_eq_self.2 (fun a ha => (List.mem_filter.1 ha).2)

theorem erasePair_idem (h n : Nat) (m : List (Hash × List NodeId)) :
    erasePair h n (erasePair h n m) = erasePair h n m := by
  induction m with
  | nil => rfl
  | cons p m ih =>
    cases p with
    | mk h' ns =>
      by_cases h1 : h' = h
      · subst h1
        rw [erasePair, if_pos rfl]
        by_cases h2 : (ns.filter (fun x => decide (x ≠ n))).isEmpty
        · rw [if_pos h2, ih]
        · rw [if_neg h2, erasePair, if_pos rfl, filter_idem, if_neg h2, ih]
      · rw [erasePair, if_neg h1, erasePair, if_neg h1, ih]

theorem infoMap_mbErase (k2 : ObjKind) (h : Hash) (n : NodeId) (s : CRequestManager) :
    infoMap k2 (MapBlocksInFlightErase h n s) = infoMap k2 s := by
  cases k2 <;> rfl

theorem received_bif (k : ObjKind) (h : Hash) (n : NodeId) (s : CRequestManager) :
    (Received k h n s).mapBlocksInFlight = erasePair h n s.mapBlocksInFlight := by
  unfold Received
  split
  · rfl
  · cases k <;> rfl

theorem received_lookup_none (k : ObjKind) (h : Hash) (n : NodeId) (s : CRequestManager) :
    alLookup h (infoMap k (Received k h n s)) = none := by
  unfold Received
  split
  · rename_i hl
    cases k
    · exact hl
    · exact hl
  · cases k
    · show alLookup h (alErase h (infoMap ObjKind.tx (MapBlocksInFlightErase h n s))) = none
      rw [alLookup_alErase, if_pos rfl]
    · show alLookup h (alErase h (infoMap ObjKind.blk (MapBlocksInFlightErase h n s))) = none
      rw [alLookup_alErase, if_pos rfl]

theorem received_info_of_none (k : ObjKind) (h : Hash) (n : NodeId) (s : CRequestManager)
    (hl : alLookup h (infoMap k s) = none) (k2 : ObjKind) :
    infoMap k2 (Received k h n s) = infoMap k2 s := by
  unfold Received
  have hl2 : alLookup h (infoMap k (MapBlocksInFlightErase h n s)) = none := by
    rw [infoMap_mbErase]; exact hl
  rw [hl2]
  cases k2 <;> rfl

theorem received_info_other (k : ObjKind) (h : Hash) (n : NodeId) (s : CRequestManager)
    (k2 : ObjKind) (hne : k2 ≠ k) : infoMap k2 (Received k h n s) = infoMap k2 s := by
  unfold Received
  split
  · cases k2 <;> rfl
  · cases k
    · cases k2
      · exact absurd rfl hne
      · rfl
    · cases k2
      · rfl
      · exact absurd rfl hne

/-- C3: for every tracked object and peer, a second `Received(H, P)` call
(a duplicate delivery) leaves the tracked object state — `mapTxnInfo`,
`mapBlkInfo` and `mapBlocksInFlight` — identical to the state after the
first call; only statistics counters may differ. -/
theorem c3_received_idempotent (k : ObjKind) (h : Hash) (n : NodeId) (s : CRequestManager) :
    (Received k h n (Received k h n s)).mapTxnInfo = (Received k h n s).mapTxnInfo ∧
    (Received k h n (Received k h n s)).mapBlkInfo = (Received k h n s).mapBlkInfo ∧
    (Received k h n (Received k h n s)).mapBlocksInFlight =
      (Received k h n s).mapBlocksInFlight := by
  have hsame : infoMap k (Received k h n (Received k h n s)) =
      infoMap k (Received k h n s) :=
    received_info_of_none k h n (Received k h n s) (received_lookup_none k h n s) k
  have hother : ∀ k2, k2 ≠ k → infoMap k2 (Received k h n (Received k h n s)) =
      infoMap k2 (Received k h n s) :=
    fun k2 hne => received_info_other k h n (Received k h n s) k2 hne
  have hinfo : ∀ k2, infoMap k2 (Received k h n (Received k h n s)) =
      infoMap k2 (Received k h n s) := by
    intro k2
    by_cases hk : k2 = k
    · subst hk; exact hsame
    · exact hother k2 hk
  refine ⟨hinfo ObjKind.tx, hinfo ObjKind.blk, ?_⟩
  rw [received_bif, received_bif, erasePair_idem]

/-! ### Claim C4: the download-window bound -/

/-- C4: `FindNextBlocksToDownload` returns at most `count` blocks and
never selects a block beyond `chainHeight + window`, no matter how many
eligible candidates exist; the default window is
`BLOCK_DOWNLOAD_WINDOW = 1024`. -/
theorem c4_find_next_blocks_window (count chainHeight window : Nat)
    (candidates : List CandidateBlock) (s : CRequestManager) :
    (FindNextBlocksToDownload count chainHeight window candidates s).length ≤ count ∧
    (FindNextBlocksToDownload count chainHeight window candidates s).all
      (fun b => decide (b.height ≤ chainHeight + window)) = true ∧
    BLOCK_DOWNLOAD_WINDOW = 1024 := by
  refine ⟨List.length_take_le _ _, ?_, rfl⟩
  rw [List.all_eq_true]
  intro b hb
  have hb2 := (List.take_sublist _ _).subset hb
  have hb3 := List.mem_filter.1 hb2
  have hb4 := hb3.2
  rw [Bool.and_eq_true] at hb4
  exact hb4.1

/-! ### Claim C2: the thin-type request DoS threshold -/

/-- Record a batch of thin-type requests of peer `n`, one
`RecordThinTypeRequest` per timestamp. -/
def recordAll (n : NodeId) (times : List Micros) (s : CRequestManager) : CRequestManager :=
  times.foldl (fun acc t => RecordThinTypeRequest n t acc) s

theorem recordAll_thinTimes (n : NodeId) (times : List Micros) (s : CRequestManager)
    (st : CRequestManagerNodeState)
    (hl : alLookup n s.mapRequestManagerNodeState = some st) :
    alLookup n (recordAll n times s).mapRequestManagerNodeState =
      some { st with thinTypeRequestTimes := times.reverse ++ st.thinTypeRequestTimes } := by
  induction times generalizing s st with
  | nil => simpa using hl
  | cons t ts ih =>
      have h1 : alLookup n (RecordThinTypeRequest n t s).mapRequestManagerNodeState =
          some { st with thinTypeRequestTimes := t :: st.thinTypeRequestTimes } := by
        show alLookup n (alUpdate n
          (fun st2 => { st2 with thinTypeRequestTimes := t :: st2.thinTypeRequestTimes })
          s.mapRequestManagerNodeState) = _
        rw [alLookup_alUpdate, if_pos rfl, hl]
        rfl
      have h2 := ih (RecordThinTypeRequest n t s)
        { st with thinTypeRequestTimes := t :: st.thinTypeRequestTimes } h1
      show alLookup n (recordAll n ts (RecordThinTypeRequest n t s)).mapRequestManagerNodeState = _
      rw [h2]
      simp [List.append_assoc]

set_option maxRecDepth 20000 in
/-- C2: `CheckForRequestDOS` flags a peer exactly when the number of
thin-type requests it issued inside the rolling 10-minute window exceeds
`MAX_THINTYPE_OBJECT_REQUESTS = 100`; in particular 101 requests inside
9 minutes are flagged and 100 requests spread over 11 minutes are not. -/
theorem c2_check_for_request_dos :
    (∀ (n : NodeId) (now : Micros) (times : List Micros),
        CheckForRequestDOS n now
            (recordAll n times (InitializeNodeState n CRequestManager.start)) =
          decide (MAX_THINTYPE_OBJECT_REQUESTS <
            (times.filter (fun t => decide (now - t < THINTYPE_REQUEST_WINDOW))).length)) ∧
    CheckForRequestDOS 1 540000000
        (recordAll 1 ((List.range 101).map (fun i => (i : Int) * 5000000))
          (InitializeNodeState 1 CRequestManager.start)) = true ∧
    CheckForRequestDOS 1 660000000
        (recordAll 1 ((List.range 100).map (fun i => (i : Int) * 6600000))
          (InitializeNodeState 1 CRequestManager.start)) = false := by
  refine ⟨?_, by decide, by decide⟩
  intro n now times
  have hinit : alLookup n
      (InitializeNodeState n CRequestManager.start).mapRequestManagerNodeState =
      some CRequestManagerNodeState.fresh := by
    show alLookup n ((n, CRequestManagerNodeState.fresh) :: []) = _
    rw [alLookup_cons, if_pos rfl]
  have h2 := recordAll_thinTimes n times _ CRequestManagerNodeState.fresh hinit
  simp [CheckForRequestDOS, h2, requestsInWindow, CRequestManagerNodeState.fresh]

/-! ### Anatomy of the `SendRequests` pass (claims C5, C6, C7) -/

theorem infoMap_markInFlight (k2 : ObjKind) (n : NodeId) (h : Hash) (now : Micros)
    (s : CRequestManager) : infoMap k2 (MarkBlockAsInFlight n h now s) = infoMap k2 s := by
  unfold MarkBlockAsInFlight
  split
  · rfl
  · split
    · rfl
    · cases k2 <;> rfl

theorem infoMap_clearInFlightFor (k2 : ObjKind) (h : Hash) (s : CRequestManager) :
    infoMap k2 (clearInFlightFor h s) = infoMap k2 s := by
  unfold clearInFlightFor
  split
  · exact infoMap_mbErase k2 h _ s
  · rfl

/-- `issueOne` of kind `k` leaves the object map of the other kind
untouched. -/
theorem issueOne_infoMap_ne (k : ObjKind) (intv : Nat) (now : Micros) (h : Hash)
    (s : CRequestManager) (k2 : ObjKind) (hne : k2 ≠ k) :
    infoMap k2 (issueOne k intv now h s).1 = infoMap k2 s := by
  unfold issueOne
  split
  · rfl
  · split
    · split
      · rfl
      · rename_i src hsel
        cases k
        · cases k2
          · exact absurd rfl hne
          · rfl
        · cases k2
          · show infoMap ObjKind.tx (MarkBlockAsInFlight src.node h now _) = _
            rw [infoMap_markInFlight, infoMap_clearInFlightFor]
            rfl
          · exact absurd rfl hne
    · rfl

/-- `issueOne` for hash `h` leaves the lookups of every other hash of its
own kind untouched. -/
theorem infoMap_setInfo_same (k : ObjKind) (m : List (Hash × CUnknownObj))
    (s : CRequestManager) : infoMap k (setInfo k m s) = m := by
  cases k <;> rfl

theorem issueOne_lookup_ne (k : ObjKind) (intv : Nat) (now : Micros) (h : Hash)
    (s : CRequestManager) (h2 : Hash) (hne : h2 ≠ h) :
    alLookup h2 (infoMap k (issueOne k intv now h s).1) = alLookup h2 (infoMap k s) := by
  unfold issueOne
  split
  · rfl
  · split
    · split
      · rfl
      · rename_i src hsel
        have hno : ¬h = h2 := fun he => hne he.symm
        cases k
        · show alLookup h2 (infoMap ObjKind.tx (setInfo ObjKind.tx
              (alUpdate h (fun o2 : CUnknownObj =>
                { o2 with
                  lastRequestTime := now,
                  outstandingReqs := o2.outstandingReqs + 1,
                  availableFrom := bumpSource src.node o2.availableFrom })
                (infoMap ObjKind.tx s)) s)) =
            alLookup h2 (infoMap ObjKind.tx s)
          rw [infoMap_setInfo_same, alLookup_alUpdate, if_neg hno]
        · show alLookup h2 (infoMap ObjKind.blk (MarkBlockAsInFlight src.node h now
              (clearInFlightFor h (setInfo ObjKind.blk
                (alUpdate h (fun o2 : CUnknownObj =>
                  { o2 with
                    lastRequestTime := now,
                    outstandingReqs := o2.outstandingReqs + 1,
                    availableFrom := bumpSource src.node o2.availableFrom })
                  (infoMap ObjKind.blk s)) s)))) =
            alLookup h2 (infoMap ObjKind.blk s)
          rw [infoMap_markInFlight, infoMap_clearInFlightFor, infoMap_setInfo_same,
            alLookup_alUpdate, if_neg hno]
    · rfl

/-- A request is issued for `h` only from an entry that exists and is
eligible. -/
theorem issueOne_issued (k : ObjKind) (intv : Nat) (now : Micros) (h : Hash)
    (s : CRequestManager) (nd : NodeId)
    (hi : (issueOne k intv now h s).2 = some nd) :
    ∃ o, alLookup h (infoMap k s) = some o ∧ reqEligible intv now o = true := by
  unfold issueOne at hi
  split at hi
  · cases hi
  · rename_i o hl
    split at hi
    · split at hi
      · cases hi
      · exact ⟨o, hl, by assumption⟩
    · cases hi

/-- An existing eligible entry with a selectable source is issued by
`issueOne`, to the selected source's node. -/
theorem issueOne_complete (k : ObjKind) (intv : Nat) (now : Micros) (h : Hash)
    (s : CRequestManager) (o : CUnknownObj) (src : CNodeRequestData)
    (hl : alLookup h (infoMap k s) = some o)
    (he : reqEligible intv now o = true)
    (hsel : selectSource o.availableFrom = some src) :
    (issueOne k intv now h s).2 = some src.node := by
  simp only [issueOne, hl, he, hsel]
  cases k <;> rfl

/-- Every issued request's hash comes from the scanned key list. -/
theorem sendLoop_mem_keys (k : ObjKind) (intv : Nat) (now : Micros) (hs : List Hash)
    (s : CRequestManager) (h : Hash) (nd : NodeId)
    (hmem : (h, nd) ∈ (sendLoop k intv now hs s).2) : h ∈ hs := by
  induction hs generalizing s with
  | nil => simp [sendLoop] at hmem
  | cons h0 t ih =>
      simp only [sendLoop] at hmem
      rcases List.mem_append.1 hmem with hm | hm
      · cases hI : (issueOne k intv now h0 s).2 with
        | none => rw [hI] at hm; cases hm
        | some nd0 =>
            rw [hI] at hm
            have he : h = h0 ∧ nd = nd0 := by simpa using hm
            exact he.1 ▸ List.mem_cons_self _ _
      · exact List.mem_cons_of_mem _ (ih (issueOne k intv now h0 s).1 hm)

/-- Soundness of a `sendLoop` pass over distinct keys: any issued request
corresponds to an entry of the initial state that was eligible. -/
theorem sendLoop_sound (k : ObjKind) (intv : Nat) (now : Micros) (hs : List Hash)
    (s : CRequestManager) (hnd : hs.Nodup) (h : Hash) (nd : NodeId)
    (hmem : (h, nd) ∈ (sendLoop k intv now hs s).2) :
    ∃ o, alLookup h (infoMap k s) = some o ∧ reqEligible intv now o = true := by
  induction hs generalizing s with
  | nil => simp [sendLoop] at hmem
  | cons h0 t ih =>
      rw [List.nodup_cons] at hnd
      simp only [sendLoop] at hmem
      rcases List.mem_append.1 hmem with hm | hm
      · cases hI : (issueOne k intv now h0 s).2 with
        | none => rw [hI] at hm; cases hm
        | some nd0 =>
            rw [hI] at hm
            have he : h = h0 ∧ nd = nd0 := by simpa using hm
            obtain ⟨he1, he2⟩ := he
            subst he1
            exact issueOne_issued k intv now h s nd0 hI
      · have hkey : h ∈ t := sendLoop_mem_keys k intv now t _ h nd hm
        have hne : h ≠ h0 := fun he => hnd.1 (he ▸ hkey)
        obtain ⟨o, hl, hel⟩ := ih (issueOne k intv now h0 s).1 hnd.2 hm
        rw [issueOne_lookup_ne k intv now h0 s h hne] at hl
        exact ⟨o, hl, hel⟩

/-- Completeness of a `sendLoop` pass over distinct keys: an eligible
entry whose key is scanned is issued, to the selected source. -/
theorem sendLoop_complete (k : ObjKind) (intv : Nat) (now : Micros) (hs : List Hash)
    (s : CRequestManager) (hnd : hs.Nodup) (h : Hash) (hmem : h ∈ hs)
    (o : CUnknownObj) (src : CNodeRequestData)
    (hl : alLookup h (infoMap k s) = some o)
    (he : reqEligible intv now o = true)
    (hsel : selectSource o.availableFrom = some src) :
    (h, src.node) ∈ (sendLoop k intv now hs s).2 := by
  induction hs generalizing s with
  | nil => cases hmem
  | cons h0 t ih =>
      rw [List.nodup_cons] at hnd
      simp only [sendLoop]
      rcases List.mem_cons.1 hmem with he0 | hmem2
      · subst he0
        rw [issueOne_complete k intv now h s o src hl he hsel]
        exact List.mem_append.2 (Or.inl (by simp))
      · have hne : h ≠ h0 := fun heq => hnd.1 (heq ▸ hmem2)
        have hl2 : alLookup h (infoMap k (issueOne k intv now h0 s).1) = some o := by
          rw [issueOne_lookup_ne k intv now h0 s h hne]
          exact hl
        exact List.mem_append.2
          (Or.inr (ih (issueOne k intv now h0 s).1 hnd.2 hmem2 hl2))

/-- A whole `sendLoop` pass of one kind leaves the other kind's object map
untouched. -/
theorem sendLoop_infoMap_ne (k : ObjKind) (intv : Nat) (now : Micros) (hs : List Hash)
    (s : CRequestManager) (k2 : ObjKind) (hne : k2 ≠ k) :
    infoMap k2 (sendLoop k intv now hs s).1 = infoMap k2 s := by
  induction hs generalizing s with
  | nil => rfl
  | cons h0 t ih =>
      show infoMap k2 (sendLoop k intv now t (issueOne k intv now h0 s).1).1 = infoMap k2 s
      rw [ih, issueOne_infoMap_ne k intv now h0 s k2 hne]

/-- Soundness of the whole `SendRequests` pass on a well-formed state:
every issued request has a tracked, eligible entry in the pre-state. -/
theorem sendRequests_sound (txI blkI : Nat) (now : Micros) {s : CRequestManager}
    (w : Invariant s) (k : ObjKind) (h : Hash) (nd : NodeId)
    (hmem : (k, h, nd) ∈ (SendRequests txI blkI now s).2) :
    ∃ o, alLookup h (infoMap k s) = some o ∧
      reqEligible (retryInterval txI blkI k) now o = true := by
  simp only [SendRequests] at hmem
  rcases List.mem_append.1 hmem with hm | hm
  · rcases List.mem_map.1 hm with ⟨p, hp, hpe⟩
    injection hpe with hk hp2
    subst hk
    subst hp2
    exact sendLoop_sound ObjKind.tx txI now (keysOf s.mapTxnInfo) s w.txKeys h nd hp
  · rcases List.mem_map.1 hm with ⟨p, hp, hpe⟩
    injection hpe with hk hp2
    subst hk
    subst hp2
    have hmapeq : infoMap ObjKind.blk
        (sendLoop ObjKind.tx txI now (keysOf s.mapTxnInfo) s).1 =
        infoMap ObjKind.blk s :=
      sendLoop_infoMap_ne ObjKind.tx txI now _ s ObjKind.blk (fun he => by cases he)
    have hkeq : keysOf (sendLoop ObjKind.tx txI now (keysOf s.mapTxnInfo) s).1.mapBlkInfo =
        keysOf s.mapBlkInfo := by
      show keysOf (infoMap ObjKind.blk (sendLoop ObjKind.tx txI now (keysOf s.mapTxnInfo) s).1) =
        keysOf (infoMap ObjKind.blk s)
      rw [hmapeq]
    obtain ⟨o, hl, hel⟩ := sendLoop_sound ObjKind.blk blkI now _ _
      (by rw [hkeq]; exact w.blkKeys) h nd hp
    rw [hmapeq] at hl
    exact ⟨o, hl, hel⟩

/-! ### Claim C6: retry intervals are respected -/

/-- C6: a `SendRequests` pass at time `now` re-issues a request for a
tracked object whose `lastRequestTime` is non-zero only when the retry
interval of its kind (`txReqRetryInterval` for transactions,
`blkReqRetryInterval` for blocks, both in microseconds) has elapsed since
the last request. -/
theorem c6_retry_interval (txI blkI : Nat) (now : Micros) {s : CRequestManager}
    (hr : Reachable s) (k : ObjKind) (h : Hash) (nd : NodeId) (o : CUnknownObj)
    (hmem : (k, h, nd) ∈ (SendRequests txI blkI now s).2)
    (hl : alLookup h (infoMap k s) = some o)
    (ht : o.lastRequestTime ≠ 0) :
    (retryInterval txI blkI k : Int) ≤ now - o.lastRequestTime := by
  obtain ⟨o2, hl2, hel⟩ :=
    sendRequests_sound txI blkI now (reachable_invariant hr) k h nd hmem
  rw [hl] at hl2
  injection hl2 with he
  subst he
  rw [reqEligible, Bool.and_eq_true] at hel
  have hd := hel.2
  rw [Bool.or_eq_true] at hd
  rcases hd with h1 | h1
  · exact absurd (of_decide_eq_true h1) ht
  · exact of_decide_eq_true h1

/-- Closed instance of C6: a transaction requested at time 10 is
re-requested at time 20 with a 5-microsecond retry interval, and indeed
10 microseconds have elapsed. -/
theorem c6_retry_interval_witness :
    ((retryInterval 5 5 ObjKind.tx : Int) ≤
      20 - ({ rateLimited := false, nDownloadingSince := 0, fProcessing := false,
              lastRequestTime := 10, outstandingReqs := 1,
              availableFrom := [⟨1, 0, 1⟩], priority := 0 } : CUnknownObj).lastRequestTime) :=
  c6_retry_interval 5 5 20
    (Reachable.step
      (Reachable.step Reachable.start (RmStep.askFor ObjKind.tx 7 1 0))
      (RmStep.sendRequests 5 5 10))
    ObjKind.tx 7 1
    { rateLimited := false, nDownloadingSince := 0, fProcessing := false,
      lastRequestTime := 10, outstandingReqs := 1,
      availableFrom := [⟨1, 0, 1⟩], priority := 0 }
    (by decide) (by decide) (by decide)

/-! ### Claim C7: rejection and source exhaustion -/

/-- C7: when `Rejected` removes the last remaining source of a tracked
object, the tracker entry is removed entirely, the dropped statistic is
incremented, and no later `SendRequests` pass requests that object again
(absent a fresh announcement); when other sources remain, the entry is
re-queued for immediate re-request (source removed, `lastRequestTime`
reset to zero). -/
theorem c7_rejected_source_exhaustion (k : ObjKind) (h : Hash) (n : NodeId)
    {s : CRequestManager} (hr : Reachable s) (o : CUnknownObj)
    (hl : alLookup h (infoMap k s) = some o) :
    ((o.availableFrom.filter (fun src => decide (src.node ≠ n))).isEmpty = true →
        alLookup h (infoMap k (Rejected k h n s)) = none ∧
        (Rejected k h n s).droppedTxns = s.droppedTxns + 1 ∧
        ∀ (txI blkI : Nat) (now : Micros) (h2 : Hash) (nd : NodeId),
          (k, h2, nd) ∈ (SendRequests txI blkI now (Rejected k h n s)).2 → h2 ≠ h) ∧
    ((o.availableFrom.filter (fun src => decide (src.node ≠ n))).isEmpty = false →
        alLookup h (infoMap k (Rejected k h n s)) =
          some { o with
                   availableFrom := o.availableFrom.filter (fun src => decide (src.node ≠ n)),
                   lastRequestTime := 0 }) := by
  constructor
  · intro hemp
    have heq1 : infoMap k (Rejected k h n s) = alErase h (infoMap k s) := by
      unfold Rejected
      split
      · rename_i hnone
        rw [hl] at hnone
        cases hnone
      · rename_i o2 hl2
        rw [hl] at hl2
        injection hl2 with ho
        subst ho
        split
        · cases k <;> rfl
        · rename_i hne
          exact absurd hemp hne
    have heq2 : (Rejected k h n s).droppedTxns = s.droppedTxns + 1 := by
      unfold Rejected
      split
      · rename_i hnone
        rw [hl] at hnone
        cases hnone
      · rename_i o2 hl2
        rw [hl] at hl2
        injection hl2 with ho
        subst ho
        split
        · cases k <;> rfl
        · rename_i hne
          exact absurd hemp hne
    refine ⟨?_, heq2, ?_⟩
    · rw [heq1, alLookup_alErase, if_pos rfl]
    · intro txI blkI now h2 nd hmem2 he2
      have w' : Invariant (Rejected k h n s) :=
        invariant_rejected k h n (reachable_invariant hr)
      obtain ⟨o2, hl2, _⟩ := sendRequests_sound txI blkI now w' k h2 nd hmem2
      rw [he2, heq1, alLookup_alErase, if_pos rfl] at hl2
      cases hl2
  · intro hemp
    unfold Rejected
    split
    · rename_i hnone
      rw [hl] at hnone
      cases hnone
    · rename_i o2 hl2
      rw [hl] at hl2
      injection hl2 with ho
      subst ho
      split
      · rename_i htrue
        rw [hemp] at htrue
        cases htrue
      · cases k
        · show alLookup h (alUpdate h (fun o2 : CUnknownObj =>
              { o2 with
                availableFrom := o.availableFrom.filter (fun src => decide (src.node ≠ n)),
                lastRequestTime := 0 }) (infoMap ObjKind.tx s)) = _
          rw [alLookup_alUpdate, if_pos rfl, hl]
          rfl
        · show alLookup h (alUpdate h (fun o2 : CUnknownObj =>
              { o2 with
                availableFrom := o.availableFrom.filter (fun src => decide (src.node ≠ n)),
                lastRequestTime := 0 }) (infoMap ObjKind.blk s)) = _
          rw [alLookup_alUpdate, if_pos rfl, hl]
          rfl

/-- Closed instance of the exhausted branch of C7: rejecting the only
source drops the tracker entry and bumps the dropped statistic. -/
theorem c7_rejected_source_exhaustion_witness :
    alLookup 7 (infoMap ObjKind.tx
        (Rejected ObjKind.tx 7 1 (AskFor ObjKind.tx 7 1 0 CRequestManager.start))) = none ∧
    (Rejected ObjKind.tx 7 1 (AskFor ObjKind.tx 7 1 0 CRequestManager.start)).droppedTxns =
      (AskFor ObjKind.tx 7 1 0 CRequestManager.start).droppedTxns + 1 := by
  have hc := (c7_rejected_source_exhaustion ObjKind.tx 7 1
    (Reachable.step Reachable.start (RmStep.askFor ObjKind.tx 7 1 0))
    { rateLimited := false, nDownloadingSince := 0, fProcessing := false,
      lastRequestTime := 0, outstandingReqs := 0,
      availableFrom := [⟨0, 0, 1⟩], priority := 0 }
    (by decide)).1 (by decide)
  exact ⟨hc.1, hc.2.1⟩

/-! ### Claim C5: last-request reset and disconnect recovery -/

theorem alLookup_mapVal (g : Nat → α → α) (k : Nat) (m : List (Nat × α)) :
    alLookup k (m.map (fun p => (p.1, g p.1 p.2))) = (alLookup k m).map (g k) := by
  induction m with
  | nil => rfl
  | cons p m ih =>
      cases p with
      | mk k' v =>
        simp only [List.map_cons, alLookup_cons]
        by_cases hk : k' = k
        · subst hk; simp
        · simp [hk, ih]

theorem mem_keys_of_lookup {k : Nat} {v : α} {m : List (Nat × α)}
    (h : alLookup k m = some v) : k ∈ keysOf m :=
  List.mem_map.2 ⟨(k, v), alLookup_mem k v m h, rfl⟩

/-- C5: `ResetLastBlockRequestTime` zeroes the tracked block's
`lastRequestTime` (the value meaning "no request"); consequently, for an
object `H` in flight from peer `P` whose only other known source is
`qsrc`, disconnecting `P` clears `H`'s in-flight state, resets its
last-request time to zero, and the next `SendRequests` pass — at any time
whatsoever, so without waiting out the block retry interval — requests `H`
from the remaining source. -/
theorem c5_reset_and_disconnect (P : NodeId) (H : Hash) {s : CRequestManager}
    (hr : Reachable s) (o : CUnknownObj) (qsrc : CNodeRequestData)
    (hblk : alLookup H s.mapBlkInfo = some o)
    (hif : alLookup H s.mapBlocksInFlight = some [P])
    (hproc : o.fProcessing = false) (hrate : o.rateLimited = false)
    (hrest : o.availableFrom.filter (fun src => decide (src.node ≠ P)) = [qsrc]) :
    (∀ (s2 : CRequestManager) (o2 : CUnknownObj),
        alLookup H s2.mapBlkInfo = some o2 →
        alLookup H (ResetLastBlockRequestTime H s2).mapBlkInfo =
          some { o2 with lastRequestTime := 0 }) ∧
    alLookup H (RemoveNodeState P s).mapBlocksInFlight = none ∧
    alLookup H (RemoveNodeState P s).mapBlkInfo =
      some { o with
               availableFrom := o.availableFrom.filter (fun src => decide (src.node ≠ P)),
               lastRequestTime := 0 } ∧
    ∀ (txI blkI : Nat) (now : Micros),
      (ObjKind.blk, H, qsrc.node) ∈ (SendRequests txI blkI now (RemoveNodeState P s)).2 := by
  have w := reachable_invariant hr
  obtain ⟨st, hst, hcnt⟩ := w.fwd H [P] hif P (List.mem_singleton.2 rfl)
  have hpos : 0 < st.vBlocksInFlight.countP (fun qb => decide (qb.hash = H)) := by
    rw [hcnt]; exact Nat.one_pos
  obtain ⟨qb, hqb, hdec⟩ := List.countP_pos_iff.1 hpos
  have hmemHS : H ∈ st.vBlocksInFlight.map (fun qb2 : QueuedBlock => qb2.hash) :=
    List.mem_map.2 ⟨qb, hqb, of_decide_eq_true hdec⟩
  have hcont : (st.vBlocksInFlight.map (fun qb2 : QueuedBlock => qb2.hash)).contains H = true :=
    List.elem_eq_true_of_mem hmemHS
  have hHS : (match alLookup P s.mapRequestManagerNodeState with
      | some st2 => st2.vBlocksInFlight.map (fun qb2 : QueuedBlock => qb2.hash)
      | none => []) = st.vBlocksInFlight.map (fun qb2 : QueuedBlock => qb2.hash) := by
    rw [hst]
  have hbifnone : alLookup H (RemoveNodeState P s).mapBlocksInFlight = none := by
    show alLookup H (erasePairAllFor P s.mapBlocksInFlight) = none
    rw [alLookup_erasePairAllFor P H s.mapBlocksInFlight w.bifKeys, hif,
      Option.some_bind, eraseNodeVal]
    simp
  have hmapl : alLookup H (RemoveNodeState P s).mapBlkInfo =
      (alLookup H s.mapBlkInfo).map (disconnectBlkEntry P
        (match alLookup P s.mapRequestManagerNodeState with
          | some st2 => st2.vBlocksInFlight.map (fun qb2 : QueuedBlock => qb2.hash)
          | none => []) H) :=
    alLookup_mapVal (disconnectBlkEntry P
      (match alLookup P s.mapRequestManagerNodeState with
        | some st2 => st2.vBlocksInFlight.map (fun qb2 : QueuedBlock => qb2.hash)
        | none => [])) H s.mapBlkInfo
  have hblk2 : alLookup H (RemoveNodeState P s).mapBlkInfo =
      some { o with
               availableFrom := o.availableFrom.filter (fun src => decide (src.node ≠ P)),
               lastRequestTime := 0 } := by
    rw [hmapl, hblk, hHS, Option.map_some', disconnectBlkEntry, if_pos hcont]
    rfl
  refine ⟨?_, hbifnone, hblk2, ?_⟩
  · intro s2 o2 hlo
    show alLookup H (alUpdate H (fun o3 : CUnknownObj => { o3 with lastRequestTime := 0 })
        s2.mapBlkInfo) = _
    rw [alLookup_alUpdate, if_pos rfl, hlo]
    rfl
  · intro txI blkI now
    have w2 : Invariant (RemoveNodeState P s) := invariant_removeNode P w
    have he2 : reqEligible blkI now
        { o with
            availableFrom := o.availableFrom.filter (fun src => decide (src.node ≠ P)),
            lastRequestTime := 0 } = true := by
      have hmemq : qsrc ∈ o.availableFrom.filter (fun src => decide (src.node ≠ P)) := by
        rw [hrest]
        exact List.mem_singleton.2 rfl
      have hq := List.mem_filter.1 hmemq
      simp [reqEligible, hproc, hrate]
      exact ⟨qsrc, hq.1, of_decide_eq_true hq.2⟩
    have hsel2 : selectSource
        (o.availableFrom.filter (fun src => decide (src.node ≠ P))) = some qsrc := by
      rw [hrest]
      rfl
    have hmapeq : infoMap ObjKind.blk
        (sendLoop ObjKind.tx txI now (keysOf (RemoveNodeState P s).mapTxnInfo)
          (RemoveNodeState P s)).1 =
        infoMap ObjKind.blk (RemoveNodeState P s) :=
      sendLoop_infoMap_ne ObjKind.tx txI now _ _ ObjKind.blk (fun he => by cases he)
    have hkeq : keysOf (sendLoop ObjKind.tx txI now (keysOf (RemoveNodeState P s).mapTxnInfo)
          (RemoveNodeState P s)).1.mapBlkInfo =
        keysOf (RemoveNodeState P s).mapBlkInfo := by
      show keysOf (infoMap ObjKind.blk (sendLoop ObjKind.tx txI now _ _).1) =
        keysOf (infoMap ObjKind.blk (RemoveNodeState P s))
      rw [hmapeq]
    have hlook : alLookup H (infoMap ObjKind.blk
        (sendLoop ObjKind.tx txI now (keysOf (RemoveNodeState P s).mapTxnInfo)
          (RemoveNodeState P s)).1) =
        some { o with
                 availableFrom := o.availableFrom.filter (fun src => decide (src.node ≠ P)),
                 lastRequestTime := 0 } := by
      rw [hmapeq]
      exact hblk2
    have hmemkeys : H ∈ keysOf (sendLoop ObjKind.tx txI now
        (keysOf (RemoveNodeState P s).mapTxnInfo) (RemoveNodeState P s)).1.mapBlkInfo := by
      rw [hkeq]
      exact mem_keys_of_lookup hblk2
    have hnodup : (keysOf (sendLoop ObjKind.tx txI now
        (keysOf (RemoveNodeState P s).mapTxnInfo) (RemoveNodeState P s)).1.mapBlkInfo).Nodup := by
      rw [hkeq]
      exact w2.blkKeys
    have hmemblk := sendLoop_complete ObjKind.blk blkI now _ _ hnodup H hmemkeys _ qsrc
      hlook he2 hsel2
    simp only [SendRequests]
    exact List.mem_append.2 (Or.inr (List.mem_map.2 ⟨(H, qsrc.node), hmemblk, rfl⟩))

/-- Closed instance of C5: block 7 is in flight from peer 1 with peer 2 as
second source; disconnecting peer 1 clears the in-flight entry and the
next pass requests block 7 from peer 2. -/
theorem c5_reset_and_disconnect_witness :
    alLookup 7 (RemoveNodeState 1
        (MarkBlockAsInFlight 1 7 1000
          (AskFor ObjKind.blk 7 2 0
            (AskFor ObjKind.blk 7 1 0
              (InitializeNodeState 2
                (InitializeNodeState 1 CRequestManager.start)))))).mapBlocksInFlight = none ∧
    (ObjKind.blk, 7, 2) ∈ (SendRequests 5 5 99 (RemoveNodeState 1
        (MarkBlockAsInFlight 1 7 1000
          (AskFor ObjKind.blk 7 2 0
            (AskFor ObjKind.blk 7 1 0
              (InitializeNodeState 2
                (InitializeNodeState 1 CRequestManager.start))))))).2 := by
  have hc := c5_reset_and_disconnect 1 7
    (Reachable.step
      (Reachable.step
        (Reachable.step
          (Reachable.step
            (Reachable.step Reachable.start (RmStep.initNode 1))
            (RmStep.initNode 2))
          (RmStep.askFor ObjKind.blk 7 1 0))
        (RmStep.askFor ObjKind.blk 7 2 0))
      (RmStep.markInFlight 1 7 1000))
    { rateLimited := false, nDownloadingSince := 0, fProcessing := false,
      lastRequestTime := 0, outstandingReqs := 0,
      availableFrom := [⟨0, 0, 1⟩, ⟨0, 0, 2⟩], priority := 0 }
    ⟨0, 0, 2⟩
    (by decide) (by decide) (by decide) (by decide) (by decide)
  exact ⟨hc.2.1, hc.2.2.2 5 5 99⟩

end Membercoin
